import Mathlib

/-! # Identity remapping: a shallow embedding

The Go sources embedded here are `pkg/idtools/idtools.go` (range translation,
subordinate-id file parsing, construction of the id mappings),
`pkg/idtools/usergroupadd_unsupported.go`, `daemon/config_experimental.go`
(resolution of the remapped-root option) and `pkg/uidmap/uidmap.go`
(translation of the ownership of a tree).

Conventions of the embedding:

* Go `int` is the 64-bit two's-complement integer of the amd64 build: a value
  of `GoInt` is an integer in `[-2^63, 2^63-1]`, and `+`, `-` wrap around.
* A Go slice is either `nil` or a (possibly empty) sequence: `Option (List α)`,
  with `none` for `nil`.
* A Go `(value, error)` result is an `Except`; the placeholder value that
  accompanies a non-nil error in Go (`-1`, `nil`) is not represented.
* Go strings are modelled as lists of Unicode characters (`List Char`); the
  bytes of a file are those of the UTF-8 encoding of its characters.
* The user and group databases and the file system are parameters (`Env`).
  A file is read through a `bufio.Scanner` with the default split function
  and buffer: lines end at a newline, and the scan stops without a token at a
  line that does not fit in the buffer of 65536 bytes. Read errors of the
  operating system are not modelled.
* In the statements, `+`, `-` and `≤` on ids (values of `GoInt`) are those of
  `int`, as in the code; the integer that an id denotes is its `val`, and a
  statement on the integers is written with `val`.
-/

namespace Idtools

/-! ## Go `int` -/

/-- Smallest value of a Go `int` (64 bit). -/
def minInt : Int := -9223372036854775808

/-- Largest value of a Go `int` (64 bit). -/
def maxInt : Int := 9223372036854775807

/-- Two's-complement wrap-around of an integer into the range of `int`. -/
def wrapInt (x : Int) : Int :=
  (x + 9223372036854775808) % 18446744073709551616 - 9223372036854775808

/-- A Go `int`: an integer that fits in 64 bits. -/
structure GoInt where
  val : Int
  lo : minInt ≤ val
  hi : val ≤ maxInt

namespace GoInt

/-- Conversion of an integer to `int` with wrap-around. -/
def ofInt (x : Int) : GoInt :=
  ⟨wrapInt x, by unfold wrapInt minInt; omega, by unfold wrapInt maxInt; omega⟩

instance : DecidableEq GoInt := fun a b =>
  if h : a.val = b.val then isTrue (by cases a; cases b; simp_all)
  else isFalse (fun e => h (by rw [e]))

instance : Add GoInt := ⟨fun a b => ofInt (a.val + b.val)⟩
instance : Sub GoInt := ⟨fun a b => ofInt (a.val - b.val)⟩
instance : Neg GoInt := ⟨fun a => ofInt (- a.val)⟩
instance : LE GoInt := ⟨fun a b => a.val ≤ b.val⟩
instance : LT GoInt := ⟨fun a b => a.val < b.val⟩
instance (a b : GoInt) : Decidable (a ≤ b) := inferInstanceAs (Decidable (a.val ≤ b.val))
instance (a b : GoInt) : Decidable (a < b) := inferInstanceAs (Decidable (a.val < b.val))
instance (n : Nat) : OfNat GoInt n := ⟨ofInt n⟩
instance : Inhabited GoInt := ⟨ofInt 0⟩

end GoInt

/-- Equality of Go results is decidable when it is on values and on errors. -/
instance instDecidableEqExcept {ε α : Type} [DecidableEq ε] [DecidableEq α] :
    DecidableEq (Except ε α) := fun a b =>
  match a, b with
  | .ok x, .ok y =>
    if h : x = y then isTrue (by rw [h]) else isFalse (fun e => h (by injection e))
  | .error x, .error y =>
    if h : x = y then isTrue (by rw [h]) else isFalse (fun e => h (by injection e))
  | .ok _, .error _ => isFalse (fun e => by injection e)
  | .error _, .ok _ => isFalse (fun e => by injection e)

/-! ## Range translation -/

/-- One entry of a user-namespace remapping (`type IDMap struct`). -/
structure IDMap where
  ContainerID : GoInt
  HostID : GoInt
  Size : GoInt
deriving DecidableEq

/-- The errors of `ToContainer` and `ToHost` (`fmt.Errorf` with the offending id). -/
inductive IDError where
  | hostUnmappable (hostID : GoInt)
  | containerUnmappable (contID : GoInt)
deriving DecidableEq

/-- The `for _, m := range idMap` loop of `ToContainer`. -/
def toContainerLoop (hostID : GoInt) : List IDMap → Except IDError GoInt
  | [] => .error (.hostUnmappable hostID)
  | m :: rest =>
    if hostID ≥ m.HostID ∧ hostID ≤ m.HostID + m.Size - 1 then
      .ok (m.ContainerID + (hostID - m.HostID))
    else toContainerLoop hostID rest

/-- Translation of a host id to the remapped id (`func ToContainer`). -/
def ToContainer (hostID : GoInt) : Option (List IDMap) → Except IDError GoInt
  | none => .ok hostID
  | some idMap => toContainerLoop hostID idMap

/-- The `for _, m := range idMap` loop of `ToHost`. -/
def toHostLoop (contID : GoInt) : List IDMap → Except IDError GoInt
  | [] => .error (.containerUnmappable contID)
  | m :: rest =>
    if contID ≥ m.ContainerID ∧ contID ≤ m.ContainerID + m.Size - 1 then
      .ok (m.HostID + (contID - m.ContainerID))
    else toHostLoop contID rest

/-- Translation of a remapped id to the host id (`func ToHost`). -/
def ToHost (contID : GoInt) : Option (List IDMap) → Except IDError GoInt
  | none => .ok contID
  | some idMap => toHostLoop contID idMap

/-- Remapped root uid/gid pair of a pair of maps (`func GetRootUIDGID`). -/
def GetRootUIDGID (uidMap gidMap : Option (List IDMap)) : Except IDError (GoInt × GoInt) :=
  match (match uidMap with
         | none => Except.ok (0 : GoInt)
         | some _ => ToHost 0 uidMap) with
  | .error err => .error err
  | .ok uid =>
    match (match gidMap with
           | none => Except.ok (0 : GoInt)
           | some _ => ToHost 0 gidMap) with
    | .error err => .error err
    | .ok gid => .ok (uid, gid)

/-! ## Go library functions used by the parser -/

/-- White space in the sense of `unicode.IsSpace`. -/
def isSpace (c : Char) : Bool :=
  let n := c.toNat
  (9 ≤ n && n ≤ 13) || n == 32 || n == 133 || n == 160 || n == 5760 ||
    (8192 ≤ n && n ≤ 8202) || n == 8232 || n == 8233 || n == 8239 || n == 8287 || n == 12288

/-- Removal of trailing white space (`strings.TrimRightFunc(s, unicode.IsSpace)`). -/
def TrimRight (s : List Char) : List Char :=
  (s.reverse.dropWhile isSpace).reverse

/-- Removal of leading and trailing white space (`strings.TrimSpace`). -/
def TrimSpace (s : List Char) : List Char :=
  TrimRight (s.dropWhile isSpace)

/-- Slicing of a string at every occurrence of a one-character separator
(`strings.Split(s, sep)` for a separator of length one). -/
def Split (s : List Char) (sep : Char) : List (List Char) :=
  match s with
  | [] => [[]]
  | c :: cs =>
    if c = sep then [] :: Split cs sep
    else
      match Split cs sep with
      | [] => [[c]]
      | p :: ps => (c :: p) :: ps

/-- The two causes of a `strconv.NumError`. -/
inductive NumErrKind where
  | ErrSyntax
  | ErrRange
deriving DecidableEq

/-- A failed conversion (`strconv.NumError`): the input and the cause. -/
structure NumError where
  Num : List Char
  Err : NumErrKind
deriving DecidableEq

/-- The digit loop of `strconv.ParseUint(s, 10, bitSize)`: `n` is the value
read so far and `maxVal` is `2^bitSize - 1`; a character that is no decimal
digit is a syntax error, a value above `maxVal` a range error, whichever
comes first. -/
def parseUintLoop (maxVal n : Nat) : List Char → Except NumErrKind Nat
  | [] => .ok n
  | d :: ds =>
    if 48 ≤ d.toNat ∧ d.toNat ≤ 57 then
      if n * 10 + (d.toNat - 48) > maxVal then .error .ErrRange
      else parseUintLoop maxVal (n * 10 + (d.toNat - 48)) ds
    else .error .ErrSyntax

/-- Unsigned decimal conversion (`strconv.ParseUint(s, 10, bitSize)`), for a
`bitSize` of at most 64. -/
def ParseUint (s : List Char) (bitSize : Nat) : Except NumErrKind Nat :=
  match s with
  | [] => .error .ErrSyntax
  | _ :: _ => parseUintLoop (2 ^ bitSize - 1) 0 s

/-- The part of `strconv.ParseInt` after the sign is picked off: `s0` is the
whole input, `neg` the sign, `s` the rest. A range error of `ParseUint` leaves
`un = 2^64-1`, which the cutoff test turns into a range error. -/
def parseIntSigned (s0 : List Char) (neg : Bool) (s : List Char) (bitSize : Nat) :
    Except NumError Int :=
  match ParseUint s bitSize with
  | .error .ErrSyntax => .error ⟨s0, .ErrSyntax⟩
  | .error .ErrRange => .error ⟨s0, .ErrRange⟩
  | .ok un =>
    if !neg && un ≥ 2 ^ (bitSize - 1) then .error ⟨s0, .ErrRange⟩
    else if neg && un > 2 ^ (bitSize - 1) then .error ⟨s0, .ErrRange⟩
    else .ok (if neg then - (un : Int) else (un : Int))

/-- Signed decimal conversion (`strconv.ParseInt(s, 10, bitSize)`). -/
def ParseInt (s : List Char) (bitSize : Nat) : Except NumError Int :=
  match s with
  | [] => .error ⟨s, .ErrSyntax⟩
  | c :: cs =>
    if c = '+' then parseIntSigned s false cs bitSize
    else if c = '-' then parseIntSigned s true cs bitSize
    else parseIntSigned s false s bitSize

/-- Conversion of a decimal string to `int` (`strconv.Atoi`). -/
def Atoi (s : List Char) : Except NumError GoInt :=
  match ParseInt s 64 with
  | .error e => .error e
  | .ok i => .ok (GoInt.ofInt i)

/-- Number of low-order bits of `a` that a 53-bit significand cannot hold. -/
def excessBits : Nat → Nat → Nat
  | 0, _ => 0
  | fuel + 1, a => if a < 9007199254740992 then 0 else 1 + excessBits fuel (a / 2)

/-- The value of `float64(x)` for an `int` x: rounding to the nearest number
with a 53-bit significand, ties to even. -/
def toFloat64 (x : Int) : Int :=
  let a := x.natAbs
  let e := excessBits 64 a
  let q := a / 2 ^ e
  let r := a % 2 ^ e
  let q1 := if 2 * r > 2 ^ e ∨ (2 * r = 2 ^ e ∧ q % 2 = 1) then q + 1 else q
  if x < 0 then - ((q1 * 2 ^ e : Nat) : Int) else ((q1 * 2 ^ e : Nat) : Int)

/-- The value of `int(f)` for an integral `float64` f; a value that `int`
cannot represent converts to the smallest `int` (the amd64 instruction). -/
def fromFloat64 (f : Int) : GoInt :=
  if h : minInt ≤ f ∧ f ≤ maxInt then ⟨f, h.1, h.2⟩ else GoInt.ofInt minInt

/-- Length in bytes of the UTF-8 encoding of a string. -/
def byteLen : List Char → Nat
  | [] => 0
  | c :: cs => c.utf8Size + byteLen cs

/-- Size of the buffer of a `bufio.Scanner` (`bufio.MaxScanTokenSize`). -/
def MaxScanTokenSize : Nat := 65536

/-- Removal of one trailing carriage return (`dropCR` of `bufio.ScanLines`). -/
def dropCR (data : List Char) : List Char :=
  if data.getLast? = some '\r' then data.dropLast else data

/-- The tokens a `bufio.Scanner` with the `ScanLines` split function yields
on the rest `data` of its input, when the line being read already holds the
characters `acc`, which take `n` bytes. A line ends at a newline, or at the
end of the input when it is not empty. The scan stops, yielding no further
token, when the buffer is full (`MaxScanTokenSize` bytes) and holds no
newline (`ErrTooLong`). -/
def scanTokens (n : Nat) (acc : List Char) : List Char → List (List Char)
  | [] => if acc = [] then [] else [dropCR acc]
  | c :: cs =>
    if c = '\n' then dropCR acc :: scanTokens 0 [] cs
    else if n + c.utf8Size ≥ MaxScanTokenSize then []
    else scanTokens (n + c.utf8Size) (acc ++ [c]) cs

/-- A record of the user database (`user.User`), numeric ids only. -/
structure User where
  Uid : GoInt
  Gid : GoInt
deriving DecidableEq

/-- A record of the group database (`user.Group`), numeric id only. -/
structure Group where
  Gid : GoInt
deriving DecidableEq

/-- The collaborators of the package: the user and group databases
(`user.LookupUser`, `user.LookupGroup`; `none` is a failed lookup) and the
file system (`os.Open` and the bytes then read; `none` is a failed open). -/
structure Env where
  LookupUser : List Char → Option User
  LookupGroup : List Char → Option Group
  Open : List Char → Option (List Char)

/-- Name of the subordinate-uid file. -/
def subuidFileName : List Char := "/etc/subuid".toList

/-- Name of the subordinate-gid file. -/
def subgidFileName : List Char := "/etc/subgid".toList

/-- The errors of `parseSubidFile`. -/
inductive ParseError where
  | openFailed (path : List Char)
  | formatNotCorrect (path : List Char)
  | userLookup (username : List Char)
  | conversion (path : List Char) (err : NumError)
deriving DecidableEq

/-- The body of the `for s.Scan()` loop of `parseSubidFile`, run over the
lines the scanner yields; `idMap` is the slice built so far. The test of
`s.Err()` at the head of the body never fires: the scanner yields no line
once it has an error. -/
def parseSubidLines (env : Env) (path username : List Char) :
    List (List Char) → List IDMap → Except ParseError (List IDMap)
  | [], idMap => .ok idMap
  | line :: rest, idMap =>
    let text := TrimSpace line
    if text = [] then parseSubidLines env path username rest idMap
    else
      match Split text ':' with
      | [name, start, len] =>
        match env.LookupUser username with
        | none => .error (.userLookup username)
        | some usr =>
          if name = username then
            match Atoi start with
            | .error e => .error (.conversion path e)
            | .ok startid =>
              match Atoi len with
              | .error e => .error (.conversion path e)
              | .ok length =>
                parseSubidLines env path username rest
                  (idMap ++ [⟨usr.Uid, startid, fromFloat64 (toFloat64 length.val)⟩])
          else parseSubidLines env path username rest idMap
      | _ => .error (.formatNotCorrect path)

/-- The effect of one line on the slice built so far: one pass through the
body of the loop of `parseSubidFile` (used to reason about the loop). -/
def subidLineStep (env : Env) (path username line : List Char) (idMap : List IDMap) :
    Except ParseError (List IDMap) :=
  if TrimSpace line = [] then .ok idMap
  else
    match Split (TrimSpace line) ':' with
    | [name, start, len] =>
      match env.LookupUser username with
      | none => .error (.userLookup username)
      | some usr =>
        if name = username then
          match Atoi start with
          | .error e => .error (.conversion path e)
          | .ok startid =>
            match Atoi len with
            | .error e => .error (.conversion path e)
            | .ok length => .ok (idMap ++ [⟨usr.Uid, startid, fromFloat64 (toFloat64 length.val)⟩])
        else .ok idMap
    | _ => .error (.formatNotCorrect path)

/-- Ranges recorded for `username` in the file at `path` (`func parseSubidFile`).
The slice returned on success is never `nil`. The error state of the scanner
is not consulted after the loop. -/
def parseSubidFile (env : Env) (path username : List Char) : Except ParseError (List IDMap) :=
  match env.Open path with
  | none => .error (.openFailed path)
  | some data => parseSubidLines env path username (scanTokens 0 [] data) []

/-- Ranges of the subordinate-uid file (`func parseSubuid`). -/
def parseSubuid (env : Env) (username : List Char) : Except ParseError (List IDMap) :=
  parseSubidFile env subuidFileName username

/-- Ranges of the subordinate-gid file (`func parseSubgid`). -/
def parseSubgid (env : Env) (username : List Char) : Except ParseError (List IDMap) :=
  parseSubidFile env subgidFileName username

/-- Addition of the range of root to a mapping (`func createIDMap`); the
result is `nil` when the user is not found. -/
def createIDMap (env : Env) (username : List Char) (idMap : Option (List IDMap)) :
    Option (List IDMap) :=
  match env.LookupUser username with
  | none => none
  | some usr => some (idMap.getD [] ++ [⟨0, usr.Uid, 1⟩])

/-- The uid and gid mappings of a user and group (`func CreateIDMappings`). -/
def CreateIDMappings (env : Env) (username groupname : List Char) :
    Except ParseError (Option (List IDMap) × Option (List IDMap)) :=
  match parseSubuid env username with
  | .error err => .error err
  | .ok uidMap =>
    match parseSubgid env groupname with
    | .error err => .error err
    | .ok gidMap =>
      .ok (createIDMap env username (some uidMap), createIDMap env username (some gidMap))

/-! ## Reference definitions for the claims on subordinate-id files -/

/-- The environment `env` with the file at `path` holding `data`. -/
def Env.withFile (env : Env) (path data : List Char) : Env :=
  ⟨env.LookupUser, env.LookupGroup, fun p => if p = path then some data else env.Open p⟩

/-- A decimal number: a string of one or more ASCII digits. -/
def isDecimal (s : List Char) : Bool :=
  !s.isEmpty && s.all (fun c => decide (48 ≤ c.toNat ∧ c.toNat ≤ 57))

/-- A decimal integer: a decimal number, possibly after one sign. -/
def isDecimalInteger (s : List Char) : Bool :=
  match s with
  | [] => false
  | c :: cs => if c = '+' ∨ c = '-' then isDecimal cs else isDecimal s

/-- The number a string of digits denotes. -/
def decimalValue (s : List Char) : Nat :=
  s.foldl (fun n d => n * 10 + (d.toNat - 48)) 0

/-- A string that does not begin with white space. -/
def noLeadingSpace (s : List Char) : Bool :=
  match s with
  | [] => true
  | c :: _ => !isSpace c

/-- A line of a subordinate-id file, without its end-of-line marker: a blank
line, or a line `name:start:length`. -/
inductive FileLine where
  | blank (ws : List Char)
  | entry (name start length : List Char)
deriving DecidableEq

/-- The characters of a line. -/
def FileLine.text : FileLine → List Char
  | .blank ws => ws
  | .entry name start length => name ++ ':' :: (start ++ ':' :: length)

/-- The form of the lines in C8: a blank line holds white space only; the
name of a line `name:start:length` holds no colon, start and length are
decimal numbers. No line holds a newline. -/
def FileLine.hasForm : FileLine → Bool
  | .blank ws => ws.all isSpace && decide ('\n' ∉ ws)
  | .entry name start length =>
    decide (':' ∉ name) && decide ('\n' ∉ name) && isDecimal start && isDecimal length

/-- The content of the file with the lines `ls`, each ended by a newline,
and possibly a last line `last` that no newline ends. -/
def fileText (ls : List FileLine) (last : Option FileLine) : List Char :=
  match ls with
  | [] =>
    match last with
    | none => []
    | some l => l.text
  | l :: rest => l.text ++ '\n' :: fileText rest last

/-- Reference definition of the result of the parse, in the words of C8: one
range {containerID: u, hostID: start, size: length} per line whose name equals
`username`, in file order. -/
def referenceRanges (u : GoInt) (username : List Char) : List FileLine → List IDMap
  | [] => []
  | .blank _ :: rest => referenceRanges u username rest
  | .entry name start length :: rest =>
    if name = username then
      ⟨u, GoInt.ofInt (decimalValue start), GoInt.ofInt (decimalValue length)⟩ ::
        referenceRanges u username rest
    else referenceRanges u username rest

/-- The restrictions of the amended C8 on a line: it fits in the buffer of the
scanner; the name of a line `name:start:length` does not begin with white
space, start is at most the largest `int`, and length is at most 2^53 (the
conversion of the length through `float64` is then exact). -/
def FileLine.inRange (l : FileLine) : Bool :=
  decide (byteLen l.text < MaxScanTokenSize) &&
    match l with
    | .blank _ => true
    | .entry name start length =>
      noLeadingSpace name && decide (decimalValue start ≤ 9223372036854775807) &&
        decide (decimalValue length ≤ 9007199254740992)

/-- The token the scanner yields for a last line that no newline ends. -/
def lastLineTokens : Option FileLine → List (List Char)
  | none => []
  | some l => if l.text = [] then [] else [dropCR l.text]

/-- The lines of C9: a three-field line `name:start:length` (no field holds a
colon or a newline) whose name differs from `username`. -/
def FileLine.isOtherUser (username : List Char) : FileLine → Bool
  | .blank _ => false
  | .entry name start length =>
    decide (':' ∉ name ++ (start ++ length)) && decide ('\n' ∉ name ++ (start ++ length)) &&
      decide (name ≠ username)

/-- The restrictions of the amended C9 on a three-field line: it fits in the
buffer of the scanner, and its name does not begin with white space. -/
def FileLine.isPlain : FileLine → Bool
  | .blank _ => false
  | .entry name start length =>
    decide (byteLen (name ++ ':' :: (start ++ ':' :: length)) < MaxScanTokenSize) &&
      noLeadingSpace name

/-- The malformed lines of C10, as the scanner yields them: a line that is
not blank after trimming and that does not split into exactly three fields,
or whose first field is `username` and whose start or length is no decimal
integer. -/
def isMalformed (username line : List Char) : Bool :=
  decide (TrimSpace line ≠ []) &&
    match Split (TrimSpace line) ':' with
    | [name, start, len] =>
      decide (name = username) && (!isDecimalInteger start || !isDecimalInteger len)
    | _ => true

/-! ## Concrete environments of the examples -/

/-- A host with the user root (uid 0), whose subordinate ranges start at 100000. -/
def rootEnv : Env where
  LookupUser := fun name => if name = "root".toList then some ⟨0, 0⟩ else none
  LookupGroup := fun name => if name = "root".toList then some ⟨0⟩ else none
  Open := fun path =>
    if path = subuidFileName ∨ path = subgidFileName then some "root:100000:65536\n".toList
    else none

/-- A host with the user alice (uid 1001, gid 1001) and the group staff
(gid 50); alice has one subordinate uid range and no subordinate gid range. -/
def aliceEnv : Env where
  LookupUser := fun name => if name = "alice".toList then some ⟨1001, 1001⟩ else none
  LookupGroup := fun name => if name = "staff".toList then some ⟨50⟩ else none
  Open := fun path =>
    if path = subuidFileName then some "alice:100000:65536\n".toList
    else if path = subgidFileName then some []
    else none

/-- A host on which no name resolves and the subordinate-id files are empty. -/
def emptyEnv : Env where
  LookupUser := fun _ => none
  LookupGroup := fun _ => none
  Open := fun path => if path = subuidFileName ∨ path = subgidFileName then some [] else none

/-! ## The remapped root (daemon/config_experimental.go) -/

/-- The token that asks for the default account. -/
def defaultIDSpecifier : List Char := "default".toList

/-- The name of the default account. -/
def defaultRemappedID : List Char := "dockroot".toList

/-- The errors of `parseRemappedRoot`. -/
inductive RootError where
  | invalidSpec (usergrp : List Char)
  | uidLookup (lookupID : List Char)
  | userCreation (name : List Char)
  | gidLookup (name : List Char)
deriving DecidableEq

/-- Creation of the account for the remapped root, in the build for systems
other than Linux (`func AddRemappedRootUser` of `usergroupadd_unsupported.go`):
it always fails. -/
def AddRemappedRootUser (_name : List Char) : Option (GoInt × GoInt) := none

/-- The end of `parseRemappedRoot`: the block `if len(idparts) == 2` and the
final `return`, with the values that `userID` and `groupID` hold when it is reached. -/
def resolveGroupPart (env : Env) (idparts : List (List Char)) (userID groupID : GoInt) :
    Except RootError (GoInt × GoInt) :=
  if idparts.length = 2 then
    match ParseInt (idparts.getD 1 []) 32 with
    | .ok gid => .ok (userID, GoInt.ofInt gid)
    | .error _ =>
      match env.LookupGroup (idparts.getD 1 []) with
      | none => .error (.gidLookup (idparts.getD 1 []))
      | some group => .ok (userID, group.Gid)
  else .ok (userID, groupID)

/-- Resolution of the remapped-root option (`func parseRemappedRoot`).
`addUser` is the function `idtools.AddRemappedRootUser` of the build. -/
def parseRemappedRoot (env : Env) (addUser : List Char → Option (GoInt × GoInt))
    (usergrp : List Char) : Except RootError (GoInt × GoInt) :=
  let idparts := Split usergrp ':'
  if idparts.length > 2 then .error (.invalidSpec usergrp)
  else
    match ParseInt (idparts.getD 0 []) 32 with
    | .ok uid =>
      let userID := GoInt.ofInt uid
      let groupID := if idparts.length = 1 then userID else 0
      resolveGroupPart env idparts userID groupID
    | .error _ =>
      let lookupID :=
        if idparts.getD 0 [] = defaultIDSpecifier then defaultRemappedID else idparts.getD 0 []
      match env.LookupUser lookupID with
      | none =>
        if idparts.getD 0 [] ≠ defaultIDSpecifier then .error (.uidLookup lookupID)
        else
          match addUser defaultRemappedID with
          | some (newUID, newGID) => .ok (newUID, newGID)
          | none => .error (.userCreation defaultRemappedID)
      | some luser =>
        if idparts.length = 1 then
          match env.LookupGroup lookupID with
          | none => .error (.gidLookup lookupID)
          | some group => resolveGroupPart env idparts luser.Uid group.Gid
        else resolveGroupPart env idparts luser.Uid 0


/-- A provisioning function that makes the default account with uid and gid
1500, and no other account. -/
def addDockroot (name : List Char) : Option (GoInt × GoInt) :=
  if name = defaultRemappedID then some (1500, 1500) else none


/-- The first colon-separated component of a spec (`idparts[0]`). -/
def firstComponent (usergrp : List Char) : List Char :=
  (Split usergrp ':').getD 0 []

/-- A component that `strconv.ParseInt(s, 10, 32)` reads as a number. -/
def isNumeric (s : List Char) : Bool :=
  match ParseInt s 32 with
  | .ok _ => true
  | .error _ => false


/-! ## Reference definitions for the claims on the intervals of a mapping -/

/-- The container interval of a range holds the id (the test of `ToHost`). -/
def IDMap.holdsContainerID (r : IDMap) (id : GoInt) : Prop :=
  r.ContainerID ≤ id ∧ id ≤ r.ContainerID + r.Size - 1

/-- The host interval of a range holds the id (the test of `ToContainer`). -/
def IDMap.holdsHostID (r : IDMap) (id : GoInt) : Prop :=
  r.HostID ≤ id ∧ id ≤ r.HostID + r.Size - 1

/-- The ranges of a mapping have pairwise disjoint container intervals and
pairwise disjoint host intervals. -/
def disjointRanges (m : List IDMap) : Prop :=
  m.Pairwise (fun a b => ∀ id, ¬ (a.holdsContainerID id ∧ b.holdsContainerID id)) ∧
    m.Pairwise (fun a b => ∀ id, ¬ (a.holdsHostID id ∧ b.holdsHostID id))

/-- The restriction of the amended C4 and C19 on a range: its size is
positive and neither interval wraps around (containerID + size - 1 and
hostID + size - 1 are at most the largest `int`). -/
def IDMap.isProper (r : IDMap) : Prop :=
  0 < r.Size ∧ r.ContainerID.val + r.Size.val - 1 ≤ maxInt ∧
    r.HostID.val + r.Size.val - 1 ≤ maxInt


/-- A mapping of two ranges with disjoint intervals. -/
def twoRanges : List IDMap := [⟨0, 100000, 10⟩, ⟨10, 200000, 10⟩]


/-! ## Ownership translation (pkg/uidmap/uidmap.go)

The file system is a collaborator of the package. A system call either
fails or succeeds (`sys`, which tells for every call whether it succeeds).
A successful `Lchown` gives the entry the uid and the gid it is called with,
except that an id of 2^32-1 leaves that id of the entry as it is: the system
call takes 32-bit ids and reads the id 2^32-1 as -1, "do not change". A
successful `Chmod` gives the entry the mode it is called with. A run yields
the calls it issues, in order, the error it returns, and the entries as they
are after the calls (`Walk`). -/

/-- A Go `uint32`. -/
structure GoUint32 where
  val : Nat
  isLt : val < 4294967296

instance : DecidableEq GoUint32 := fun a b =>
  if h : a.val = b.val then isTrue (by cases a; cases b; simp_all)
  else isFalse (fun e => h (by rw [e]))

instance (n : Nat) : OfNat GoUint32 n := ⟨⟨n % 4294967296, Nat.mod_lt _ (by decide)⟩⟩

/-- The conversion `int(id)` of a `uint32`. -/
def GoUint32.toInt (id : GoUint32) : GoInt := GoInt.ofInt id.val

/-- The bit of `os.FileMode` that marks a directory (`os.ModeDir`). -/
def ModeDir : Nat := 2147483648

/-- The bit of `os.FileMode` that marks a symbolic link (`os.ModeSymlink`). -/
def ModeSymlink : Nat := 134217728

/-- The metadata of an entry (`os.FileInfo` over a `syscall.Stat_t`): its
name, mode, and the numeric ids of its owner. -/
structure FileInfo where
  Name : List Char
  Mode : Nat
  Uid : GoUint32
  Gid : GoUint32
deriving DecidableEq

/-- Whether the entry is a directory (`finfo.IsDir()`). -/
def FileInfo.IsDir (finfo : FileInfo) : Bool :=
  finfo.Mode &&& ModeDir != 0

/-- The system calls of the package. -/
inductive Call where
  | Lchown (path : List Char) (uid gid : GoInt)
  | Chmod (path : List Char) (mode : Nat)
  | Open (path : List Char)
  | Readdir (path : List Char)
  | Stat (path : List Char)
deriving DecidableEq

/-- The errors of the ownership translation. -/
inductive XlateError where
  | cannotChown (path : List Char)
  | cannotChmod (path : List Char)
  | failed (call : Call)
  | containerRoot
deriving DecidableEq

/-- The outcome of a run: the calls issued, the error returned (`none` for
`nil`), and the entries after the calls. -/
structure Walk (α : Type) where
  calls : List Call
  err : Option XlateError
  after : α

/-- The id an entry has after a successful `lchown(2)`: `old` is the id it
had and `new` the id passed to the call; the id 2^32-1 is `(uid_t) -1`, which
leaves the id unchanged. -/
def chownedId (old new : GoUint32) : GoUint32 :=
  if new = 4294967295 then old else new

/-- Translation of the owner of one entry (`func xlateOneFile`); `finfo` is
the metadata of the entry at `path`. The error value that `fmt.Errorf` makes
for an entry already owned by the container root is dropped by the source
and has no effect. -/
def xlateOneFile (sys : Call → Bool) (path : List Char) (finfo : FileInfo)
    (containerRoot : GoUint32) (inverse : Bool) : Walk FileInfo :=
  let uid := finfo.Uid
  let gid := finfo.Gid
  let mode := finfo.Mode
  if ((uid = 0 ∨ gid = 0) ∧ inverse = false) ∨
      ((uid = containerRoot ∨ gid = containerRoot) ∧ inverse = true) then
    let newUid := uid
    let newGid := gid
    let newUid := if uid = 0 ∧ inverse = false then containerRoot else newUid
    let newGid := if gid = 0 ∧ inverse = false then containerRoot else newGid
    let newUid := if uid = containerRoot ∧ inverse = true then 0 else newUid
    let newGid := if gid = containerRoot ∧ inverse = true then 0 else newGid
    let chown := Call.Lchown path newUid.toInt newGid.toInt
    if sys chown = false then ⟨[chown], some (.cannotChown path), finfo⟩
    else if mode &&& ModeSymlink ≠ ModeSymlink then
      if sys (.Chmod path mode) = false then
        ⟨[chown, .Chmod path mode], some (.cannotChmod path),
          ⟨finfo.Name, mode, chownedId uid newUid, chownedId gid newGid⟩⟩
      else
        ⟨[chown, .Chmod path mode], none,
          ⟨finfo.Name, mode, chownedId uid newUid, chownedId gid newGid⟩⟩
    else ⟨[chown], none, ⟨finfo.Name, mode, chownedId uid newUid, chownedId gid newGid⟩⟩
  else ⟨[], none, finfo⟩


/-- The rewrite of an id in forward mode, in the words of C17: the container
root for the id 0, the id itself otherwise. -/
def forwardId (containerRoot id : GoUint32) : GoUint32 :=
  if id = 0 then containerRoot else id

/-- The rewrite of an id in inverse mode, in the words of C17: 0 for the id
of the container root, the id itself otherwise. -/
def inverseId (containerRoot id : GoUint32) : GoUint32 :=
  if id = containerRoot then 0 else id


/-- A file-system tree: an entry with its metadata and, when it is a
directory, the entries it holds, in the order `Readdir` lists them. -/
inductive Node where
  | mk (info : FileInfo) (entries : List Node)

/-- The metadata of the entry at the root of a tree. -/
def Node.info : Node → FileInfo
  | .mk info _ => info

/-- The entries of the directory at the root of a tree. -/
def Node.entries : Node → List Node
  | .mk _ entries => entries

/-- The path of an entry of a directory (`filepath.Join(base, name)`, without
the lexical cleaning of the result). -/
def Join (base name : List Char) : List Char :=
  base ++ '/' :: name

mutual
/-- Translation of the entries of the directory `dir`, whose path is `base`
(`func xlateUidsRecursive`); the run yields the entries of the directory as
they are after it. `Readdir` fails on an entry that is no directory. -/
def xlateUidsRecursive (sys : Call → Bool) (base : List Char) (containerRoot : GoUint32)
    (inverse : Bool) : (dir : Node) → Walk (List Node)
  | .mk finfo entries =>
    if sys (.Open base) = false then ⟨[.Open base], some (.failed (.Open base)), entries⟩
    else if finfo.IsDir = false ∨ sys (.Readdir base) = false then
      ⟨[.Open base, .Readdir base], some (.failed (.Readdir base)), entries⟩
    else
      let w := xlateList sys base containerRoot inverse entries
      ⟨.Open base :: .Readdir base :: w.calls, w.err, w.after⟩
/-- The loop `for _, finfo := range list` of `xlateUidsRecursive`, over the
entries that `Readdir` has listed. -/
def xlateList (sys : Call → Bool) (base : List Char) (containerRoot : GoUint32)
    (inverse : Bool) : (list : List Node) → Walk (List Node)
  | [] => ⟨[], none, []⟩
  | n :: rest =>
    let path := Join base n.info.Name
    let w1 : Walk (List Node) :=
      if n.info.IsDir then xlateUidsRecursive sys path containerRoot inverse n
      else ⟨[], none, n.entries⟩
    match w1.err with
    | some e => ⟨w1.calls, some e, .mk n.info w1.after :: rest⟩
    | none =>
      let w2 := xlateOneFile sys path n.info containerRoot inverse
      match w2.err with
      | some e => ⟨w1.calls ++ w2.calls, some e, .mk w2.after w1.after :: rest⟩
      | none =>
        let w3 := xlateList sys base containerRoot inverse rest
        ⟨w1.calls ++ w2.calls ++ w3.calls, w3.err, .mk w2.after w1.after :: w3.after⟩
end

/-- Translation of the tree at the path `root` (`func XlateUids`).
`ContainerRootUid` is the result of the function of that name (`none` when it
fails); `root` is a directory, not a symbolic link, so that `os.Stat(root)`
yields the metadata of the root of the tree. -/
def XlateUids (sys : Call → Bool) (ContainerRootUid : Option GoUint32) (root : List Char)
    (inverse : Bool) (tree : Node) : Walk Node :=
  match ContainerRootUid with
  | none => ⟨[], some .containerRoot, tree⟩
  | some containerRoot =>
    let w := xlateUidsRecursive sys root containerRoot inverse tree
    match w.err with
    | some e => ⟨w.calls, some e, .mk tree.info w.after⟩
    | none =>
      if sys (.Stat root) = false then
        ⟨w.calls ++ [.Stat root], some (.failed (.Stat root)), .mk tree.info w.after⟩
      else
        let w2 := xlateOneFile sys root tree.info containerRoot inverse
        ⟨w.calls ++ .Stat root :: w2.calls, w2.err, .mk w2.after w.after⟩

mutual
/-- Every entry of the tree satisfies `p`. -/
def Node.all (p : FileInfo → Bool) : Node → Bool
  | .mk info entries => p info && Node.allList p entries
/-- Every entry of the trees satisfies `p`. -/
def Node.allList (p : FileInfo → Bool) : List Node → Bool
  | [] => true
  | n :: rest => Node.all p n && Node.allList p rest
end

/-- The entry holds no id of the container root. -/
def FileInfo.noRootID (containerRoot : GoUint32) (finfo : FileInfo) : Bool :=
  decide (finfo.Uid ≠ containerRoot) && decide (finfo.Gid ≠ containerRoot)

/-- A tree of the examples: a directory owned by root that holds a file of
root, a symbolic link of (0, 500) and a directory of (7, 0) with one file. -/
def sampleTree : Node :=
  .mk ⟨"t".toList, ModeDir + 493, 0, 0⟩
    [.mk ⟨"f".toList, 420, 0, 0⟩ [],
     .mk ⟨"l".toList, ModeSymlink + 511, 0, 500⟩ [],
     .mk ⟨"d".toList, ModeDir + 493, 7, 0⟩ [.mk ⟨"g".toList, 420, 1000, 1000⟩ []]]


/-- The first step of the body of the loop of `xlateUidsRecursive` on the
entry `n`: the recursive call when the entry is a directory (used to reason
about the loop). -/
def xlateChild (sys : Call → Bool) (base : List Char) (containerRoot : GoUint32)
    (inverse : Bool) (n : Node) : Walk (List Node) :=
  if n.info.IsDir then xlateUidsRecursive sys (Join base n.info.Name) containerRoot inverse n
  else ⟨[], none, n.entries⟩


end Idtools

/-! # Theorems -/

namespace Idtools

/-! ## Arithmetic of `int` -/

theorem wrapInt_of_range {x : Int} (h₁ : minInt ≤ x) (h₂ : x ≤ maxInt) : wrapInt x = x := by
  unfold wrapInt; unfold minInt at h₁; unfold maxInt at h₂; omega

namespace GoInt

theorem ext {a b : GoInt} (h : a.val = b.val) : a = b := by
  cases a; cases b; simp_all

theorem add_val (a b : GoInt) : (a + b).val = wrapInt (a.val + b.val) := rfl
theorem sub_val (a b : GoInt) : (a - b).val = wrapInt (a.val - b.val) := rfl
theorem le_iff (a b : GoInt) : a ≤ b ↔ a.val ≤ b.val := Iff.rfl
theorem lt_iff (a b : GoInt) : a < b ↔ a.val < b.val := Iff.rfl
theorem zero_val : (0 : GoInt).val = 0 := by decide
theorem one_val : (1 : GoInt).val = 1 := by decide

end GoInt

/-! ## Range translation -/

/-- Round trip through one range, at the level of integers: the arithmetic
fact behind `ToHost` followed by `ToContainer`. -/
theorem roundtrip_arith (c h s x : GoInt) (hs : 0 < s.val) (hh : h.val + s.val - 1 ≤ maxInt)
    (h1 : c.val ≤ x.val) (h2 : x.val ≤ ((c + s) - 1).val) :
    h.val ≤ (h + (x - c)).val ∧ (h + (x - c)).val ≤ ((h + s) - 1).val ∧
      (c + ((h + (x - c)) - h)).val = x.val := by
  obtain ⟨cv, cl, ch⟩ := c
  obtain ⟨hv, hl, hu⟩ := h
  obtain ⟨sv, sl, su⟩ := s
  obtain ⟨xv, xl, xu⟩ := x
  simp only [GoInt.add_val, GoInt.sub_val, GoInt.one_val] at *
  unfold wrapInt at *
  unfold minInt at *
  unfold maxInt at *
  omega

/-- The interval test of the code is the test on exact integers when the upper
bound start + size - 1 does not leave the range of `int`. -/
theorem interval_exact (start size id : GoInt) (h₁ : minInt ≤ start.val + size.val - 1)
    (h₂ : start.val + size.val - 1 ≤ maxInt) :
    (start ≤ id ∧ id ≤ start + size - 1) ↔
      (start.val ≤ id.val ∧ id.val ≤ start.val + size.val - 1) := by
  obtain ⟨a, al, au⟩ := start
  obtain ⟨s, sl, su⟩ := size
  obtain ⟨x, xl, xu⟩ := id
  simp only [GoInt.le_iff, GoInt.add_val, GoInt.sub_val, GoInt.one_val] at *
  unfold wrapInt
  unfold minInt at *
  unfold maxInt at *
  omega

/-- C1, as stated, fails: the round trip breaks when the host interval wraps
around (`{0, 2^63-1, 2}` at id 1: `ToHost` yields `-2^63`, which `ToContainer`
rejects), and when the size is negative and the container interval wraps
(`{-2^63, 0, -1}` at id 0). -/
theorem C1_counterexample :
    ¬ (∀ (R : IDMap) (id : GoInt), R.ContainerID ≤ id → id ≤ R.ContainerID + R.Size - 1 →
        ∃ h, ToHost id (some [R]) = .ok h ∧ ToContainer h (some [R]) = .ok id) ∧
    ToHost 1 (some [⟨0, GoInt.ofInt maxInt, 2⟩]) = .ok (GoInt.ofInt minInt) ∧
    ToContainer (GoInt.ofInt minInt) (some [⟨0, GoInt.ofInt maxInt, 2⟩]) =
      .error (.hostUnmappable (GoInt.ofInt minInt)) ∧
    ToHost 0 (some [⟨GoInt.ofInt minInt, 0, -1⟩]) = .ok (GoInt.ofInt minInt) ∧
    ToContainer (GoInt.ofInt minInt) (some [⟨GoInt.ofInt minInt, 0, -1⟩]) =
      .error (.hostUnmappable (GoInt.ofInt minInt)) := by
  refine ⟨fun H => ?_, by decide, by decide, by decide, by decide⟩
  obtain ⟨h, h1, h2⟩ := H ⟨0, GoInt.ofInt maxInt, 2⟩ 1 (by decide) (by decide)
  have e : ToHost 1 (some [⟨0, GoInt.ofInt maxInt, 2⟩]) = .ok (GoInt.ofInt minInt) := by decide
  rw [e] at h1
  injection h1 with h1
  subst h1
  revert h2
  decide

/-- C1, amended: for every range R with size > 0 whose host interval does not
wrap around (hostID + size - 1 is at most the largest `int`), and every id with
containerID ≤ id ≤ containerID + size - 1 (in the arithmetic of `int`),
`ToHost(id, [R])` succeeds with some h, and `ToContainer(h, [R])` succeeds and
returns id. -/
theorem C1_roundtrip_single_range (R : IDMap) (id : GoInt)
    (hsize : 0 < R.Size) (hhost : R.HostID.val + R.Size.val - 1 ≤ maxInt)
    (h1 : R.ContainerID ≤ id) (h2 : id ≤ R.ContainerID + R.Size - 1) :
    ∃ h, ToHost id (some [R]) = .ok h ∧ ToContainer h (some [R]) = .ok id := by
  have hs : 0 < R.Size.val := by
    have := (GoInt.lt_iff _ _).1 hsize
    rwa [GoInt.zero_val] at this
  obtain ⟨a1, a2, a3⟩ := roundtrip_arith R.ContainerID R.HostID R.Size id hs hhost h1 h2
  refine ⟨R.HostID + (id - R.ContainerID), ?_, ?_⟩
  · have hc : id ≥ R.ContainerID ∧ id ≤ R.ContainerID + R.Size - 1 := ⟨h1, h2⟩
    simp only [ToHost, toHostLoop, hc, and_self, if_true]
  · have hc : R.HostID + (id - R.ContainerID) ≥ R.HostID ∧
        R.HostID + (id - R.ContainerID) ≤ R.HostID + R.Size - 1 := ⟨a1, a2⟩
    simp only [ToContainer, toContainerLoop, hc, and_self, if_true]
    exact congrArg Except.ok (GoInt.ext a3)

/-- Witness of C1 (amended): the range `{0, 100000, 65536}` at id 5. -/
theorem C1_roundtrip_single_range_witness :
    ∃ h, ToHost 5 (some [⟨0, 100000, 65536⟩]) = .ok h ∧
      ToContainer h (some [⟨0, 100000, 65536⟩]) = .ok 5 :=
  C1_roundtrip_single_range ⟨0, 100000, 65536⟩ 5 (by decide) (by decide) (by decide) (by decide)

/-- C2, as stated, fails: on an empty mapping that is not `nil` both
translations return an error. -/
theorem C2_counterexample :
    ¬ (∀ (id : GoInt) (m : Option (List IDMap)), (m = none ∨ m = some []) →
        ToContainer id m = .ok id ∧ ToHost id m = .ok id) ∧
    ToContainer 5 (some []) = .error (.hostUnmappable 5) ∧
    ToHost 5 (some []) = .error (.containerUnmappable 5) := by
  refine ⟨fun H => ?_, by decide, by decide⟩
  have h := (H 5 (some []) (Or.inr rfl)).2
  revert h
  decide

/-- C2, amended: `ToContainer` and `ToHost` are the identity function on an
absent (`nil`) mapping: for every id both succeed and return id unchanged. -/
theorem C2_identity_on_nil (id : GoInt) :
    ToContainer id none = .ok id ∧ ToHost id none = .ok id :=
  ⟨rfl, rfl⟩

theorem toHostLoop_first_match (id : GoInt) (ranges : List IDMap)
    (h : ∃ r ∈ ranges, r.ContainerID ≤ id ∧ id ≤ r.ContainerID + r.Size - 1) :
    ∃ pre r post, ranges = pre ++ r :: post ∧
      (∀ m ∈ pre, ¬ (m.ContainerID ≤ id ∧ id ≤ m.ContainerID + m.Size - 1)) ∧
      (r.ContainerID ≤ id ∧ id ≤ r.ContainerID + r.Size - 1) ∧
      toHostLoop id ranges = .ok (r.HostID + (id - r.ContainerID)) := by
  induction ranges with
  | nil => obtain ⟨r, hr, _⟩ := h; cases hr
  | cons m rest ih =>
    by_cases hm : m.ContainerID ≤ id ∧ id ≤ m.ContainerID + m.Size - 1
    · refine ⟨[], m, rest, rfl, fun _ hx => (by cases hx), hm, ?_⟩
      have hm2 : id ≥ m.ContainerID ∧ id ≤ m.ContainerID + m.Size - 1 := hm
      unfold toHostLoop
      rw [if_pos hm2]
    · obtain ⟨r, hr, hin⟩ := h
      have hr2 : r ∈ rest := by
        rcases List.mem_cons.1 hr with e | e
        · subst e; exact absurd hin hm
        · exact e
      obtain ⟨pre, r1, post, e, hpre, hr1, hres⟩ := ih ⟨r, hr2, hin⟩
      refine ⟨m :: pre, r1, post, by rw [e]; rfl, ?_, hr1, ?_⟩
      · intro x hx
        rcases List.mem_cons.1 hx with e2 | e2
        · subst e2; exact hm
        · exact hpre x e2
      · have hm2 : ¬ (id ≥ m.ContainerID ∧ id ≤ m.ContainerID + m.Size - 1) := hm
        unfold toHostLoop
        rw [if_neg hm2]
        exact hres

theorem toContainerLoop_first_match (id : GoInt) (ranges : List IDMap)
    (h : ∃ r ∈ ranges, r.HostID ≤ id ∧ id ≤ r.HostID + r.Size - 1) :
    ∃ pre r post, ranges = pre ++ r :: post ∧
      (∀ m ∈ pre, ¬ (m.HostID ≤ id ∧ id ≤ m.HostID + m.Size - 1)) ∧
      (r.HostID ≤ id ∧ id ≤ r.HostID + r.Size - 1) ∧
      toContainerLoop id ranges = .ok (r.ContainerID + (id - r.HostID)) := by
  induction ranges with
  | nil => obtain ⟨r, hr, _⟩ := h; cases hr
  | cons m rest ih =>
    by_cases hm : m.HostID ≤ id ∧ id ≤ m.HostID + m.Size - 1
    · refine ⟨[], m, rest, rfl, fun _ hx => (by cases hx), hm, ?_⟩
      have hm2 : id ≥ m.HostID ∧ id ≤ m.HostID + m.Size - 1 := hm
      unfold toContainerLoop
      rw [if_pos hm2]
    · obtain ⟨r, hr, hin⟩ := h
      have hr2 : r ∈ rest := by
        rcases List.mem_cons.1 hr with e | e
        · subst e; exact absurd hin hm
        · exact e
      obtain ⟨pre, r1, post, e, hpre, hr1, hres⟩ := ih ⟨r, hr2, hin⟩
      refine ⟨m :: pre, r1, post, by rw [e]; rfl, ?_, hr1, ?_⟩
      · intro x hx
        rcases List.mem_cons.1 hx with e2 | e2
        · subst e2; exact hm
        · exact hpre x e2
      · have hm2 : ¬ (id ≥ m.HostID ∧ id ≤ m.HostID + m.Size - 1) := hm
        unfold toContainerLoop
        rw [if_neg hm2]
        exact hres

/-- For a range of positive size whose intervals do not wrap around, the
tests of `ToHost` and `ToContainer` are the tests on the integers. -/
theorem isProper_tests_exact (r : IDMap) (id : GoInt) (hp : r.isProper) :
    ((r.ContainerID ≤ id ∧ id ≤ r.ContainerID + r.Size - 1) ↔
      (r.ContainerID.val ≤ id.val ∧ id.val ≤ r.ContainerID.val + r.Size.val - 1)) ∧
    ((r.HostID ≤ id ∧ id ≤ r.HostID + r.Size - 1) ↔
      (r.HostID.val ≤ id.val ∧ id.val ≤ r.HostID.val + r.Size.val - 1)) := by
  obtain ⟨hs, hc, hh⟩ := hp
  have hs2 : 0 < r.Size.val := by
    have := (GoInt.lt_iff _ _).1 hs
    rwa [GoInt.zero_val] at this
  have h1 := r.ContainerID.lo
  have h2 := r.HostID.lo
  exact ⟨interval_exact _ _ _ (by omega) hc, interval_exact _ _ _ (by omega) hh⟩

/-- The linear translation of an id of the interval of size `s` at `c` to the
interval at `h` does not wrap around when the interval at `h` does not. -/
theorem translation_exact (c h s x : GoInt) (hh : h.val + s.val - 1 ≤ maxInt)
    (h1 : c.val ≤ x.val) (h2 : x.val ≤ c.val + s.val - 1) :
    (h + (x - c)).val = h.val + (x.val - c.val) := by
  obtain ⟨cv, cl, ch⟩ := c
  obtain ⟨hv, hl, hu⟩ := h
  obtain ⟨sv, sl, su⟩ := s
  obtain ⟨xv, xl, xu⟩ := x
  simp only [GoInt.add_val, GoInt.sub_val] at *
  unfold wrapInt
  unfold minInt at *
  unfold maxInt at *
  omega

/-- C4, as stated, fails when an interval wraps around, the code computing
the end of an interval and the translated id in the arithmetic of `int`:
the container interval of `{2^63-1, 0, 2}` holds the id 2^63-1, and `ToHost`
returns an error; the container interval of `{0, 2^63-1, 2}` holds the id 1,
and `ToHost` returns -2^63, not hostID + (id - containerID) = 2^63; likewise
for `ToContainer`. And a range of size 0 whose (empty) interval wraps around
is taken for a match: `{-2^63, 7, 0}` before `{0, 1000, 10}`, at the id 5. -/
theorem C4_counterexample :
    ¬ (∀ (ranges : List IDMap) (id : GoInt),
        (∃ r ∈ ranges, r.ContainerID.val ≤ id.val ∧
          id.val ≤ r.ContainerID.val + r.Size.val - 1) →
        ∃ pre r post, ranges = pre ++ r :: post ∧
          (∀ m ∈ pre, ¬ (m.ContainerID.val ≤ id.val ∧
            id.val ≤ m.ContainerID.val + m.Size.val - 1)) ∧
          (r.ContainerID.val ≤ id.val ∧ id.val ≤ r.ContainerID.val + r.Size.val - 1) ∧
          ∃ h, ToHost id (some ranges) = .ok h ∧
            h.val = r.HostID.val + (id.val - r.ContainerID.val)) ∧
    ToHost (GoInt.ofInt maxInt) (some [⟨GoInt.ofInt maxInt, 0, 2⟩]) =
      .error (.containerUnmappable (GoInt.ofInt maxInt)) ∧
    ToHost 1 (some [⟨0, GoInt.ofInt maxInt, 2⟩]) = .ok (GoInt.ofInt minInt) ∧
    ToContainer (GoInt.ofInt maxInt) (some [⟨0, GoInt.ofInt maxInt, 2⟩]) =
      .error (.hostUnmappable (GoInt.ofInt maxInt)) ∧
    ToContainer 1 (some [⟨GoInt.ofInt maxInt, 0, 2⟩]) = .ok (GoInt.ofInt minInt) ∧
    ToHost 5 (some [⟨GoInt.ofInt minInt, 7, 0⟩, ⟨0, 1000, 10⟩]) =
      .ok (GoInt.ofInt (minInt + 12)) := by
  have e : ToHost (GoInt.ofInt maxInt) (some [⟨GoInt.ofInt maxInt, 0, 2⟩]) =
      .error (.containerUnmappable (GoInt.ofInt maxInt)) := by decide
  refine ⟨fun H => ?_, e, by decide, by decide, by decide, by decide⟩
  obtain ⟨_, _, _, _, _, _, h, h1, _⟩ :=
    H [⟨GoInt.ofInt maxInt, 0, 2⟩] (GoInt.ofInt maxInt)
      ⟨⟨GoInt.ofInt maxInt, 0, 2⟩, by simp, by decide⟩
  rw [e] at h1
  cases h1

/-- C4, amended: first match wins. For every mapping whose ranges have
size > 0 and intervals that do not wrap around (containerID + size - 1 and
hostID + size - 1 are at most the largest `int`) and every id, if the
container interval [containerID, containerID + size - 1] of some range holds
id, `ToHost` succeeds and returns hostID + (id - containerID) of the earliest
such range (no range before it holds id, whatever follows it); likewise
`ToContainer` on the host intervals returns containerID + (id - hostID) of
the earliest range. Intervals and results are those of the integers. -/
theorem C4_first_match_wins (ranges : List IDMap) (id : GoInt)
    (hp : ∀ r ∈ ranges, r.isProper) :
    ((∃ r ∈ ranges, r.ContainerID.val ≤ id.val ∧
        id.val ≤ r.ContainerID.val + r.Size.val - 1) →
      ∃ pre r post, ranges = pre ++ r :: post ∧
        (∀ m ∈ pre, ¬ (m.ContainerID.val ≤ id.val ∧
          id.val ≤ m.ContainerID.val + m.Size.val - 1)) ∧
        (r.ContainerID.val ≤ id.val ∧ id.val ≤ r.ContainerID.val + r.Size.val - 1) ∧
        ∃ h, ToHost id (some ranges) = .ok h ∧
          h.val = r.HostID.val + (id.val - r.ContainerID.val)) ∧
    ((∃ r ∈ ranges, r.HostID.val ≤ id.val ∧ id.val ≤ r.HostID.val + r.Size.val - 1) →
      ∃ pre r post, ranges = pre ++ r :: post ∧
        (∀ m ∈ pre, ¬ (m.HostID.val ≤ id.val ∧ id.val ≤ m.HostID.val + m.Size.val - 1)) ∧
        (r.HostID.val ≤ id.val ∧ id.val ≤ r.HostID.val + r.Size.val - 1) ∧
        ∃ h, ToContainer id (some ranges) = .ok h ∧
          h.val = r.ContainerID.val + (id.val - r.HostID.val)) := by
  constructor
  · intro ⟨r0, hr0, hin0⟩
    obtain ⟨pre, r, post, hm, hpre, hin, hres⟩ := toHostLoop_first_match id ranges
      ⟨r0, hr0, ((isProper_tests_exact r0 id (hp r0 hr0)).1).2 hin0⟩
    have hrm : r ∈ ranges := by rw [hm]; simp
    have hin2 := ((isProper_tests_exact r id (hp r hrm)).1).1 hin
    refine ⟨pre, r, post, hm, fun m hmem hex => ?_, hin2, _, hres, ?_⟩
    · have hmm : m ∈ ranges := by rw [hm]; exact List.mem_append_left _ hmem
      exact hpre m hmem (((isProper_tests_exact m id (hp m hmm)).1).2 hex)
    · exact translation_exact _ _ _ _ (hp r hrm).2.2 hin2.1 hin2.2
  · intro ⟨r0, hr0, hin0⟩
    obtain ⟨pre, r, post, hm, hpre, hin, hres⟩ := toContainerLoop_first_match id ranges
      ⟨r0, hr0, ((isProper_tests_exact r0 id (hp r0 hr0)).2).2 hin0⟩
    have hrm : r ∈ ranges := by rw [hm]; simp
    have hin2 := ((isProper_tests_exact r id (hp r hrm)).2).1 hin
    refine ⟨pre, r, post, hm, fun m hmem hex => ?_, hin2, _, hres, ?_⟩
    · have hmm : m ∈ ranges := by rw [hm]; exact List.mem_append_left _ hmem
      exact hpre m hmem (((isProper_tests_exact m id (hp m hmm)).2).2 hex)
    · exact translation_exact _ _ _ _ (hp r hrm).2.1 hin2.1 hin2.2

/-- Witness of C4 (amended): two overlapping ranges; the earlier one decides. -/
theorem C4_first_match_wins_witness :
    (∃ pre r post, [(⟨0, 1000, 10⟩ : IDMap), ⟨0, 2000, 10⟩] = pre ++ r :: post ∧
        (∀ m ∈ pre, ¬ (m.ContainerID.val ≤ (5 : GoInt).val ∧
          (5 : GoInt).val ≤ m.ContainerID.val + m.Size.val - 1)) ∧
        (r.ContainerID.val ≤ (5 : GoInt).val ∧
          (5 : GoInt).val ≤ r.ContainerID.val + r.Size.val - 1) ∧
        ∃ h, ToHost 5 (some [⟨0, 1000, 10⟩, ⟨0, 2000, 10⟩]) = .ok h ∧
          h.val = r.HostID.val + ((5 : GoInt).val - r.ContainerID.val)) ∧
    (∃ pre r post, [(⟨0, 1000, 10⟩ : IDMap), ⟨7, 1000, 10⟩] = pre ++ r :: post ∧
        (∀ m ∈ pre, ¬ (m.HostID.val ≤ (1005 : GoInt).val ∧
          (1005 : GoInt).val ≤ m.HostID.val + m.Size.val - 1)) ∧
        (r.HostID.val ≤ (1005 : GoInt).val ∧
          (1005 : GoInt).val ≤ r.HostID.val + r.Size.val - 1) ∧
        ∃ h, ToContainer 1005 (some [⟨0, 1000, 10⟩, ⟨7, 1000, 10⟩]) = .ok h ∧
          h.val = r.ContainerID.val + ((1005 : GoInt).val - r.HostID.val)) ∧
    ToHost 5 (some [⟨0, 1000, 10⟩, ⟨0, 2000, 10⟩]) = .ok 1005 ∧
    ToContainer 1005 (some [⟨0, 1000, 10⟩, ⟨7, 1000, 10⟩]) = .ok 5 :=
  ⟨(C4_first_match_wins [⟨0, 1000, 10⟩, ⟨0, 2000, 10⟩] 5 (by
      intro r hr
      simp only [List.mem_cons, List.mem_singleton, List.not_mem_nil, or_false] at hr
      rcases hr with e | e <;> subst e <;> unfold IDMap.isProper <;> decide)).1
      ⟨⟨0, 2000, 10⟩, by simp, by decide⟩,
   (C4_first_match_wins [⟨0, 1000, 10⟩, ⟨7, 1000, 10⟩] 1005 (by
      intro r hr
      simp only [List.mem_cons, List.mem_singleton, List.not_mem_nil, or_false] at hr
      rcases hr with e | e <;> subst e <;> unfold IDMap.isProper <;> decide)).2
      ⟨⟨7, 1000, 10⟩, by simp, by decide⟩,
   by decide, by decide⟩

/-- C5: `GetRootUIDGID(nil, nil)` returns (0, 0) without error, and each
component is defaulted on its own: when `ToHost(0, g)` succeeds with h,
`GetRootUIDGID(nil, g)` is (0, h); when `ToHost(0, u)` succeeds with h,
`GetRootUIDGID(u, nil)` is (h, 0). -/
theorem C5_root_defaults :
    GetRootUIDGID none none = .ok (0, 0) ∧
    (∀ (g : Option (List IDMap)) (h : GoInt), ToHost 0 g = .ok h →
      GetRootUIDGID none g = .ok (0, h)) ∧
    (∀ (u : Option (List IDMap)) (h : GoInt), ToHost 0 u = .ok h →
      GetRootUIDGID u none = .ok (h, 0)) := by
  refine ⟨rfl, ?_, ?_⟩
  · intro g h hg
    cases g with
    | none =>
      have e : h = 0 := by
        simp only [ToHost] at hg
        injection hg with hg
        exact hg.symm
      subst e
      rfl
    | some l => simp only [GetRootUIDGID, hg]
  · intro u h hu
    cases u with
    | none =>
      have e : h = 0 := by
        simp only [ToHost] at hu
        injection hu with hu
        exact hu.symm
      subst e
      rfl
    | some l => simp only [GetRootUIDGID, hu]

/-- Witness of C5: a gid mapping, and a uid mapping, that send 0 to 1000. -/
theorem C5_root_defaults_witness :
    GetRootUIDGID none (some [⟨0, 1000, 1⟩]) = .ok (0, 1000) ∧
      GetRootUIDGID (some [⟨0, 1000, 1⟩]) none = .ok (1000, 0) :=
  ⟨C5_root_defaults.2.1 (some [⟨0, 1000, 1⟩]) 1000 (by decide),
   C5_root_defaults.2.2 (some [⟨0, 1000, 1⟩]) 1000 (by decide)⟩

/-! ## Strings -/

theorem dropWhile_append_stop (p : Char → Bool) (x y : List Char) (c : Char) (hc : p c = false) :
    (x ++ c :: y).dropWhile p = x.dropWhile p ++ c :: y := by
  induction x with
  | nil => simp [List.dropWhile, hc]
  | cons a x ih =>
    by_cases ha : p a = true
    · simp [List.dropWhile, ha, ih]
    · simp [List.dropWhile, ha]

theorem TrimRight_append_stop (x y : List Char) (c : Char) (hc : isSpace c = false) :
    TrimRight (x ++ c :: y) = x ++ c :: TrimRight y := by
  unfold TrimRight
  rw [List.reverse_append, List.reverse_cons, List.append_assoc, List.singleton_append,
    dropWhile_append_stop _ _ _ _ hc]
  simp

theorem TrimRight_snoc_space (x : List Char) (c : Char) (hc : isSpace c = true) :
    TrimRight (x ++ [c]) = TrimRight x := by
  unfold TrimRight
  simp [List.dropWhile, hc]

theorem TrimRight_of_last (x : List Char) (c : Char) (hc : isSpace c = false) :
    TrimRight (x ++ [c]) = x ++ [c] := by
  have := TrimRight_append_stop x [] c hc
  simpa [TrimRight] using this

theorem TrimSpace_snoc_space (x : List Char) (c : Char) (hc : isSpace c = true) :
    TrimSpace (x ++ [c]) = TrimSpace x := by
  induction x with
  | nil => simp [TrimSpace, TrimRight, List.dropWhile, hc]
  | cons a x ih =>
    by_cases ha : isSpace a = true
    · have e1 : TrimSpace (a :: x ++ [c]) = TrimSpace (x ++ [c]) := by
        simp [TrimSpace, List.dropWhile, ha]
      have e2 : TrimSpace (a :: x) = TrimSpace x := by
        simp [TrimSpace, List.dropWhile, ha]
      rw [e1, e2, ih]
    · have e1 : TrimSpace (a :: x ++ [c]) = TrimRight ((a :: x) ++ [c]) := by
        simp [TrimSpace, List.dropWhile, ha]
      have e2 : TrimSpace (a :: x) = TrimRight (a :: x) := by
        simp [TrimSpace, List.dropWhile, ha]
      rw [e1, e2, TrimRight_snoc_space _ _ hc]

theorem TrimSpace_dropCR (l : List Char) : TrimSpace (dropCR l) = TrimSpace l := by
  unfold dropCR
  split
  · rename_i h
    rcases List.eq_nil_or_concat l with e | ⟨x, c, e⟩
    · subst e; simp at h
    · subst e
      simp at h
      subst h
      rw [List.concat_eq_append, List.dropLast_concat]
      exact (TrimSpace_snoc_space x '\r' (by decide)).symm
  · rfl

theorem Split_no_sep (a : List Char) (sep : Char) (h : sep ∉ a) : Split a sep = [a] := by
  induction a with
  | nil => rfl
  | cons c a ih =>
    have hc : ¬ c = sep := fun e => h (by simp [e])
    have ha : sep ∉ a := fun e => h (List.mem_cons_of_mem _ e)
    rw [Split, if_neg hc, ih ha]

theorem Split_append_sep (a b : List Char) (sep : Char) (h : sep ∉ a) :
    Split (a ++ sep :: b) sep = a :: Split b sep := by
  induction a with
  | nil => simp [Split]
  | cons c a ih =>
    have hc : ¬ c = sep := fun e => h (by simp [e])
    have ha : sep ∉ a := fun e => h (List.mem_cons_of_mem _ e)
    rw [List.cons_append, Split, if_neg hc, ih ha]

/-! ## Numbers -/

theorem digits_foldl_ge (s : List Char) (n : Nat) :
    n ≤ s.foldl (fun n d => n * 10 + (d.toNat - 48)) n := by
  induction s generalizing n with
  | nil => exact Nat.le_refl _
  | cons d ds ih =>
    simp only [List.foldl_cons]
    exact Nat.le_trans (by omega) (ih (n * 10 + (d.toNat - 48)))

theorem parseUintLoop_digits (maxVal : Nat) (s : List Char) (n : Nat)
    (hd : ∀ c ∈ s, 48 ≤ c.toNat ∧ c.toNat ≤ 57)
    (hv : s.foldl (fun n d => n * 10 + (d.toNat - 48)) n ≤ maxVal) :
    parseUintLoop maxVal n s = .ok (s.foldl (fun n d => n * 10 + (d.toNat - 48)) n) := by
  induction s generalizing n with
  | nil => rfl
  | cons d ds ih =>
    simp only [List.foldl_cons] at hv ⊢
    have hdig : 48 ≤ d.toNat ∧ d.toNat ≤ 57 := hd d (List.mem_cons_self _ _)
    have hle := digits_foldl_ge ds (n * 10 + (d.toNat - 48))
    have hno : ¬ (n * 10 + (d.toNat - 48) > maxVal) := by omega
    rw [parseUintLoop, if_pos hdig, if_neg hno]
    exact ih _ (fun c hc => hd c (List.mem_cons_of_mem _ hc)) hv

theorem isDecimal_iff (s : List Char) :
    isDecimal s = true ↔ s ≠ [] ∧ ∀ c ∈ s, 48 ≤ c.toNat ∧ c.toNat ≤ 57 := by
  cases s with
  | nil => simp [isDecimal]
  | cons c cs => simp [isDecimal]

/-- A decimal number that fits in an `int` converts to its value. -/
theorem Atoi_decimal (s : List Char) (hs : isDecimal s = true)
    (hv : decimalValue s ≤ 9223372036854775807) :
    Atoi s = .ok (GoInt.ofInt (decimalValue s)) := by
  obtain ⟨hne, hd⟩ := (isDecimal_iff s).1 hs
  cases s with
  | nil => exact absurd rfl hne
  | cons c cs =>
    have hc := hd c (List.mem_cons_self _ _)
    have h1 : ¬ c = '+' := by
      intro e; rw [e] at hc; revert hc; decide
    have h2 : ¬ c = '-' := by
      intro e; rw [e] at hc; revert hc; decide
    have hu : parseUintLoop (2 ^ 64 - 1) 0 (c :: cs) = .ok (decimalValue (c :: cs)) :=
      parseUintLoop_digits _ (c :: cs) 0 hd (by unfold decimalValue at hv; exact Nat.le_trans hv (by norm_num))
    have hcut : ¬ (9223372036854775808 ≤ decimalValue (c :: cs)) := by omega
    simp only [Atoi, ParseInt, if_neg h1, if_neg h2, parseIntSigned, ParseUint, hu]
    simp [hcut]

theorem digitChar_toNat (m : Nat) (h : m < 10) : (Nat.digitChar m).toNat = 48 + m := by
  interval_cases m <;> rfl

/-- The decimal digits of a number: `Nat.toDigits 10` yields a string of
digits whose value is the number. -/
theorem toDigitsCore_spec (fuel : Nat) : ∀ (n : Nat) (ds : List Char), n < fuel →
    ∃ pre, Nat.toDigitsCore 10 fuel n ds = pre ++ ds ∧ pre ≠ [] ∧
      (∀ c ∈ pre, 48 ≤ c.toNat ∧ c.toNat ≤ 57) ∧
      pre.foldl (fun n d => n * 10 + (d.toNat - 48)) 0 = n := by
  induction fuel with
  | zero => intro n ds h; omega
  | succ fuel ih =>
    intro n ds h
    have hd := digitChar_toNat (n % 10) (Nat.mod_lt _ (by omega))
    rw [Nat.toDigitsCore]
    by_cases h0 : n / 10 = 0
    · simp only [h0, if_true]
      refine ⟨[Nat.digitChar (n % 10)], rfl, by simp, ?_, ?_⟩
      · intro c hc
        rw [List.mem_singleton.1 hc, hd]
        omega
      · simp only [List.foldl_cons, List.foldl_nil, hd]
        omega
    · simp only [h0, if_false]
      obtain ⟨pre, e, _, hdig, hval⟩ := ih (n / 10) (Nat.digitChar (n % 10) :: ds) (by omega)
      refine ⟨pre ++ [Nat.digitChar (n % 10)], by rw [e]; simp, by simp, ?_, ?_⟩
      · intro c hc
        rcases List.mem_append.1 hc with hc | hc
        · exact hdig c hc
        · rw [List.mem_singleton.1 hc, hd]
          omega
      · rw [List.foldl_append, hval]
        simp only [List.foldl_cons, List.foldl_nil, hd]
        omega

theorem toDigits_decimal (n : Nat) :
    isDecimal (Nat.toDigits 10 n) = true ∧ decimalValue (Nat.toDigits 10 n) = n := by
  obtain ⟨pre, e, hne, hdig, hval⟩ := toDigitsCore_spec (n + 1) n [] (by omega)
  rw [List.append_nil] at e
  unfold Nat.toDigits
  rw [e]
  exact ⟨(isDecimal_iff pre).2 ⟨hne, hdig⟩, hval⟩

theorem ofInt_val_of_range (x : Int) (h₁ : minInt ≤ x) (h₂ : x ≤ maxInt) :
    (GoInt.ofInt x).val = x :=
  wrapInt_of_range h₁ h₂

theorem excessBits_small (fuel a : Nat) (h : a < 9007199254740992) : excessBits fuel a = 0 := by
  cases fuel with
  | zero => rfl
  | succ k => simp [excessBits, h]

/-- The conversion of an `int` to `float64` and back is exact up to 2^53. -/
theorem fromFloat64_toFloat64 (x : GoInt) (h0 : 0 ≤ x.val) (h1 : x.val ≤ 9007199254740992) :
    fromFloat64 (toFloat64 x.val) = x := by
  have hx : toFloat64 x.val = x.val := by
    by_cases he : x.val = 9007199254740992
    · rw [he]; decide
    · have hlt : x.val.natAbs < 9007199254740992 := by omega
      unfold toFloat64
      simp only [excessBits_small 64 _ hlt]
      have hneg : ¬ x.val < 0 := by omega
      simp only [pow_zero, Nat.div_one, Nat.mod_one, Nat.mul_zero, Nat.mul_one, if_neg hneg]
      have h21 : ¬ ((0 : Nat) > 1 ∨ ((0 : Nat) = 1 ∧ x.val.natAbs % 2 = 1)) := by omega
      rw [if_neg h21]
      omega
  rw [hx]
  unfold fromFloat64
  rw [dif_pos ⟨x.lo, x.hi⟩]

/-- A line that fits in the buffer, newline included, is yielded whole. -/
theorem scanTokens_line (l rest : List Char) (n : Nat) (acc : List Char)
    (hnl : '\n' ∉ l) (hlen : n + byteLen l < MaxScanTokenSize) :
    scanTokens n acc (l ++ '\n' :: rest) = dropCR (acc ++ l) :: scanTokens 0 [] rest := by
  induction l generalizing n acc with
  | nil => simp [scanTokens]
  | cons c l ih =>
    have hc : ¬ c = '\n' := fun e => hnl (by simp [e])
    have hl : '\n' ∉ l := fun e => hnl (List.mem_cons_of_mem _ e)
    simp only [byteLen] at hlen
    have hfit : ¬ (n + c.utf8Size ≥ MaxScanTokenSize) := by omega
    rw [List.cons_append, scanTokens, if_neg hc, if_neg hfit, ih _ _ hl (by omega)]
    simp

/-- A last line without newline that fits in the buffer is yielded when it
is not empty. -/
theorem scanTokens_last (l : List Char) (n : Nat) (acc : List Char)
    (hnl : '\n' ∉ l) (hlen : n + byteLen l < MaxScanTokenSize) :
    scanTokens n acc l = if acc ++ l = [] then [] else [dropCR (acc ++ l)] := by
  induction l generalizing n acc with
  | nil => simp [scanTokens]
  | cons c l ih =>
    have hc : ¬ c = '\n' := fun e => hnl (by simp [e])
    have hl : '\n' ∉ l := fun e => hnl (List.mem_cons_of_mem _ e)
    simp only [byteLen] at hlen
    have hfit : ¬ (n + c.utf8Size ≥ MaxScanTokenSize) := by omega
    rw [scanTokens, if_neg hc, if_neg hfit, ih _ _ hl (by omega)]
    simp

/-- A line that fills the buffer before its newline stops the scan: neither
it nor anything after it is yielded. -/
theorem scanTokens_too_long (l rest : List Char) (n : Nat) (acc : List Char)
    (hnl : '\n' ∉ l) (hn : n < MaxScanTokenSize) (hlen : MaxScanTokenSize ≤ n + byteLen l) :
    scanTokens n acc (l ++ rest) = [] := by
  induction l generalizing n acc with
  | nil => simp only [byteLen] at hlen; omega
  | cons c l ih =>
    have hc : ¬ c = '\n' := fun e => hnl (by simp [e])
    have hl : '\n' ∉ l := fun e => hnl (List.mem_cons_of_mem _ e)
    simp only [byteLen] at hlen
    rw [List.cons_append, scanTokens, if_neg hc]
    by_cases hfit : n + c.utf8Size ≥ MaxScanTokenSize
    · rw [if_pos hfit]
    · rw [if_neg hfit]
      exact ih _ _ hl (by omega) (by omega)

/-- Scanning a prefix that ends at a line boundary: the tokens of the prefix,
and then, unless the scan stopped in the prefix, the tokens of the rest. -/
theorem scanTokens_prefix (pre : List Char) (hpre : pre.getLast? = some '\n') (n : Nat)
    (acc : List Char) :
    ∃ (toks : List (List Char)) (stopped : Bool), ∀ rest,
      scanTokens n acc (pre ++ rest) =
        toks ++ (if stopped = true then [] else scanTokens 0 [] rest) := by
  induction pre generalizing n acc with
  | nil => simp at hpre
  | cons c pre ih =>
    by_cases hc : c = '\n'
    · subst hc
      cases pre with
      | nil =>
        refine ⟨[dropCR acc], false, fun rest => ?_⟩
        simp [scanTokens]
      | cons d pre =>
        have hp : (d :: pre).getLast? = some '\n' := by
          simpa [List.getLast?_cons_cons] using hpre
        obtain ⟨toks, stopped, h⟩ := ih hp 0 []
        refine ⟨dropCR acc :: toks, stopped, fun rest => ?_⟩
        rw [List.cons_append, scanTokens, if_pos rfl, h rest]
        rfl
    · by_cases hfit : n + c.utf8Size ≥ MaxScanTokenSize
      · refine ⟨[], true, fun rest => ?_⟩
        rw [List.cons_append, scanTokens, if_neg hc, if_pos hfit]
        rfl
      · cases pre with
        | nil => simp at hpre; exact absurd hpre hc
        | cons d pre =>
          have hp : (d :: pre).getLast? = some '\n' := by
            simpa [List.getLast?_cons_cons] using hpre
          obtain ⟨toks, stopped, h⟩ := ih hp (n + c.utf8Size) (acc ++ [c])
          refine ⟨toks, stopped, fun rest => ?_⟩
          rw [List.cons_append, scanTokens, if_neg hc, if_neg hfit, h rest]

theorem byteLen_replicate_a (k : Nat) : byteLen (List.replicate k 'a') = k := by
  induction k with
  | zero => rfl
  | succ k ih =>
    rw [List.replicate_succ, byteLen, ih]
    have : ('a' : Char).utf8Size = 1 := by decide
    omega

theorem byteLen_append (a b : List Char) : byteLen (a ++ b) = byteLen a + byteLen b := by
  induction a with
  | nil => simp [byteLen]
  | cons c a ih =>
    rw [List.cons_append, byteLen, byteLen, ih]
    omega

/-! ## The loop of `parseSubidFile` -/

/-- The loop runs the body on the first line and then goes on with the rest. -/
theorem parseSubidLines_cons (env : Env) (path username line : List Char)
    (rest : List (List Char)) (idMap : List IDMap) :
    parseSubidLines env path username (line :: rest) idMap =
      match subidLineStep env path username line idMap with
      | .error e => .error e
      | .ok m => parseSubidLines env path username rest m := by
  unfold subidLineStep
  rw [parseSubidLines]
  repeat' split
  all_goals first | rfl | simp_all

theorem parseSubidLines_append (env : Env) (path username : List Char)
    (t₁ t₂ : List (List Char)) (idMap : List IDMap) :
    parseSubidLines env path username (t₁ ++ t₂) idMap =
      match parseSubidLines env path username t₁ idMap with
      | .error e => .error e
      | .ok m => parseSubidLines env path username t₂ m := by
  induction t₁ generalizing idMap with
  | nil => rfl
  | cons line rest ih =>
    rw [List.cons_append, parseSubidLines_cons, parseSubidLines_cons]
    cases subidLineStep env path username line idMap with
    | error e => rfl
    | ok m => exact ih m

/-- A blank line leaves the slice as it is. -/
theorem subidLineStep_blank (env : Env) (path username line : List Char) (idMap : List IDMap)
    (h : TrimSpace line = []) : subidLineStep env path username line idMap = .ok idMap := by
  unfold subidLineStep
  rw [if_pos h]

/-- A three-field line for another name leaves the slice as it is, when the
user is found. -/
theorem subidLineStep_other (env : Env) (path username line name start len : List Char)
    (idMap : List IDMap) (usr : User) (hu : env.LookupUser username = some usr)
    (hne : TrimSpace line ≠ []) (hs : Split (TrimSpace line) ':' = [name, start, len])
    (hn : name ≠ username) :
    subidLineStep env path username line idMap = .ok idMap := by
  unfold subidLineStep
  rw [if_neg hne, hs]
  simp only [hu, if_neg hn]

/-- A three-field line for the name adds one range, when the user is found
and start and length convert. -/
theorem subidLineStep_match (env : Env) (path username line start len : List Char)
    (idMap : List IDMap) (usr : User) (a b : GoInt) (hu : env.LookupUser username = some usr)
    (hne : TrimSpace line ≠ []) (hs : Split (TrimSpace line) ':' = [username, start, len])
    (ha : Atoi start = .ok a) (hb : Atoi len = .ok b) :
    subidLineStep env path username line idMap =
      .ok (idMap ++ [⟨usr.Uid, a, fromFloat64 (toFloat64 b.val)⟩]) := by
  unfold subidLineStep
  rw [if_neg hne, hs]
  simp only [hu, if_true, ha, hb]

/-- Every range a line adds carries the uid of the user as container id. -/
theorem subidLineStep_containerID (env : Env) (path username line : List Char)
    (idMap m : List IDMap) (usr : User) (hu : env.LookupUser username = some usr)
    (h : subidLineStep env path username line idMap = .ok m)
    (hall : ∀ r ∈ idMap, r.ContainerID = usr.Uid) : ∀ r ∈ m, r.ContainerID = usr.Uid := by
  unfold subidLineStep at h
  rw [hu] at h
  simp only at h
  repeat' split at h
  all_goals first
    | (injection h with h; subst h; assumption)
    | (injection h with h; subst h
       intro r hr
       rcases List.mem_append.1 hr with hr | hr
       · exact hall r hr
       · rw [List.mem_singleton.1 hr])
    | cases h

theorem parseSubidLines_containerID (env : Env) (path username : List Char)
    (toks : List (List Char)) (idMap m : List IDMap) (usr : User)
    (hu : env.LookupUser username = some usr)
    (h : parseSubidLines env path username toks idMap = .ok m)
    (hall : ∀ r ∈ idMap, r.ContainerID = usr.Uid) : ∀ r ∈ m, r.ContainerID = usr.Uid := by
  induction toks generalizing idMap with
  | nil =>
    rw [parseSubidLines] at h
    injection h with h
    subst h
    exact hall
  | cons line rest ih =>
    rw [parseSubidLines_cons] at h
    cases hstep : subidLineStep env path username line idMap with
    | error e => rw [hstep] at h; cases h
    | ok m1 =>
      rw [hstep] at h
      exact ih m1 h (subidLineStep_containerID env path username line idMap m1 usr hu hstep hall)

theorem parseSubidFile_containerID (env : Env) (path username : List Char) (m : List IDMap)
    (usr : User) (hu : env.LookupUser username = some usr)
    (h : parseSubidFile env path username = .ok m) : ∀ r ∈ m, r.ContainerID = usr.Uid := by
  unfold parseSubidFile at h
  cases hopen : env.Open path with
  | none => rw [hopen] at h; cases h
  | some data =>
    rw [hopen] at h
    exact parseSubidLines_containerID env path username _ [] m usr hu h
      (fun r hr => by cases hr)

/-- A range whose container id is positive does not hold container id 0. -/
theorem toHostLoop_zero_skip (ranges tail : List IDMap) (u : GoInt) (hu : 0 < u)
    (hall : ∀ r ∈ ranges, r.ContainerID = u) :
    toHostLoop 0 (ranges ++ tail) = toHostLoop 0 tail := by
  induction ranges with
  | nil => rfl
  | cons m rest ih =>
    have hm : m.ContainerID = u := hall m (List.mem_cons_self _ _)
    have hno : ¬ ((0 : GoInt) ≥ m.ContainerID ∧ (0 : GoInt) ≤ m.ContainerID + m.Size - 1) := by
      intro ⟨h1, _⟩
      rw [hm] at h1
      have h2 := (GoInt.le_iff _ _).1 h1
      have h3 := (GoInt.lt_iff _ _).1 hu
      omega
    rw [List.cons_append, toHostLoop, if_neg hno]
    exact ih (fun r hr => hall r (List.mem_cons_of_mem _ hr))

theorem toHostLoop_root_range (u : GoInt) : toHostLoop 0 [⟨0, u, 1⟩] = .ok u := by
  have hc : (0 : GoInt) ≥ (0 : GoInt) ∧ (0 : GoInt) ≤ (0 : GoInt) + 1 - 1 := by decide
  rw [toHostLoop, if_pos hc]
  refine congrArg Except.ok (GoInt.ext ?_)
  have e : ((0 : GoInt) - 0).val = 0 := by decide
  rw [GoInt.add_val, e, Int.add_zero]
  exact wrapInt_of_range u.lo u.hi

/-! ## The id mappings -/

theorem CreateIDMappings_ok (env : Env) (username groupname : List Char)
    (uidMap gidMap : Option (List IDMap))
    (h : CreateIDMappings env username groupname = .ok (uidMap, gidMap)) :
    ∃ subuid subgid, parseSubuid env username = .ok subuid ∧
      parseSubgid env groupname = .ok subgid ∧
      uidMap = createIDMap env username (some subuid) ∧
      gidMap = createIDMap env username (some subgid) := by
  unfold CreateIDMappings at h
  cases h1 : parseSubuid env username with
  | error e => rw [h1] at h; cases h
  | ok subuid =>
    cases h2 : parseSubgid env groupname with
    | error e => rw [h1, h2] at h; cases h
    | ok subgid =>
      rw [h1, h2] at h
      injection h with h
      injection h with ha hb
      exact ⟨subuid, subgid, rfl, rfl, ha.symm, hb.symm⟩

/-- C6, as stated, fails: for the user root (uid 0) with the subordinate range
`root:100000:65536`, the parsed range {0, 100000, 65536} comes before the
range of root {0, 0, 1} and `ToHost(0, uidMapping)` is 100000, not 0. -/
theorem C6_counterexample :
    ¬ (∀ (env : Env) (username groupname : List Char) (usr : User)
        (uidMap gidMap : Option (List IDMap)),
        env.LookupUser username = some usr →
        CreateIDMappings env username groupname = .ok (uidMap, gidMap) →
        ToHost 0 uidMap = .ok usr.Uid) ∧
    CreateIDMappings rootEnv "root".toList "root".toList =
      .ok (some [⟨0, 100000, 65536⟩, ⟨0, 0, 1⟩], some [⟨0, 100000, 65536⟩, ⟨0, 0, 1⟩]) ∧
    ToHost 0 (some [⟨0, 100000, 65536⟩, ⟨0, 0, 1⟩]) = .ok 100000 := by
  have e : CreateIDMappings rootEnv "root".toList "root".toList =
      .ok (some [⟨0, 100000, 65536⟩, ⟨0, 0, 1⟩], some [⟨0, 100000, 65536⟩, ⟨0, 0, 1⟩]) := by
    decide
  refine ⟨fun H => ?_, e, by decide⟩
  have h := H rootEnv "root".toList "root".toList ⟨0, 0⟩ _ _ (by decide) e
  revert h
  decide

/-- C6, amended: for every username that resolves to a uid u > 0 and every
content of the subordinate-id files for which `CreateIDMappings(username,
groupname)` succeeds, `ToHost(0, uidMapping)` on the returned uid mapping
succeeds and equals u, whatever subordinate ranges the file holds. -/
theorem C6_root_maps_to_user (env : Env) (username groupname : List Char) (usr : User)
    (uidMap gidMap : Option (List IDMap))
    (hu : env.LookupUser username = some usr) (hpos : 0 < usr.Uid)
    (h : CreateIDMappings env username groupname = .ok (uidMap, gidMap)) :
    ToHost 0 uidMap = .ok usr.Uid := by
  obtain ⟨subuid, subgid, h1, _, e1, _⟩ := CreateIDMappings_ok env username groupname _ _ h
  have hall := parseSubidFile_containerID env subuidFileName username subuid usr hu h1
  rw [e1]
  simp only [createIDMap, hu, Option.getD_some, ToHost]
  rw [toHostLoop_zero_skip subuid _ usr.Uid hpos hall]
  exact toHostLoop_root_range usr.Uid

/-- Witness of C6 (amended): alice (uid 1001) with the range `alice:100000:65536`. -/
theorem C6_root_maps_to_user_witness :
    ToHost 0 (some [⟨1001, 100000, 65536⟩, ⟨0, 1001, 1⟩]) = .ok 1001 :=
  C6_root_maps_to_user aliceEnv "alice".toList "staff".toList ⟨1001, 1001⟩
    (some [⟨1001, 100000, 65536⟩, ⟨0, 1001, 1⟩]) (some [⟨0, 1001, 1⟩])
    (by decide) (by decide) (by decide)

/-- C7, as stated, fails: the range added to the gid mapping carries the uid
of the user, not the gid of the group (alice, uid 1001, with the group staff,
gid 50: the gid mapping ends in {0, 1001, 1}); and when the user is not found
`CreateIDMappings` succeeds with two `nil` mappings. -/
theorem C7_counterexample :
    ¬ (∀ (env : Env) (username groupname : List Char) (uidMap gidMap : Option (List IDMap)),
        CreateIDMappings env username groupname = .ok (uidMap, gidMap) →
        ∃ subuid subgid usr grp, parseSubuid env username = .ok subuid ∧
          parseSubgid env groupname = .ok subgid ∧
          env.LookupUser username = some usr ∧ env.LookupGroup groupname = some grp ∧
          uidMap = some (subuid ++ [⟨0, usr.Uid, 1⟩]) ∧
          gidMap = some (subgid ++ [⟨0, grp.Gid, 1⟩])) ∧
    CreateIDMappings aliceEnv "alice".toList "staff".toList =
      .ok (some [⟨1001, 100000, 65536⟩, ⟨0, 1001, 1⟩], some [⟨0, 1001, 1⟩]) ∧
    aliceEnv.LookupGroup "staff".toList = some ⟨50⟩ ∧
    CreateIDMappings emptyEnv "alice".toList "staff".toList = .ok (none, none) := by
  refine ⟨fun H => ?_, by decide, by decide, by decide⟩
  obtain ⟨subuid, subgid, usr, grp, _, _, h3, _, _, _⟩ :=
    H emptyEnv "alice".toList "staff".toList none none (by decide)
  cases h3

/-- C7, amended: whenever `CreateIDMappings(username, groupname)` succeeds and
the username resolves to a user with uid u, the uid mapping is the parsed
subordinate-uid ranges followed by exactly one range {containerID: 0,
hostID: u, size: 1}, and the gid mapping is the parsed subordinate-gid ranges
followed by exactly one range with containerID 0 and size 1. -/
theorem C7_root_ranges (env : Env) (username groupname : List Char) (usr : User)
    (uidMap gidMap : Option (List IDMap))
    (hu : env.LookupUser username = some usr)
    (h : CreateIDMappings env username groupname = .ok (uidMap, gidMap)) :
    ∃ subuid subgid, parseSubuid env username = .ok subuid ∧
      parseSubgid env groupname = .ok subgid ∧
      uidMap = some (subuid ++ [⟨0, usr.Uid, 1⟩]) ∧
      ∃ r, gidMap = some (subgid ++ [r]) ∧ r.ContainerID = 0 ∧ r.Size = 1 := by
  obtain ⟨subuid, subgid, h1, h2, e1, e2⟩ := CreateIDMappings_ok env username groupname _ _ h
  refine ⟨subuid, subgid, h1, h2, ?_, ⟨0, usr.Uid, 1⟩, ?_, rfl, rfl⟩
  · rw [e1]; simp only [createIDMap, hu, Option.getD_some]
  · rw [e2]; simp only [createIDMap, hu, Option.getD_some]

/-- Witness of C7 (amended): alice with one subordinate uid range and none
for the group. -/
theorem C7_root_ranges_witness :
    ∃ subuid subgid, parseSubuid aliceEnv "alice".toList = .ok subuid ∧
      parseSubgid aliceEnv "staff".toList = .ok subgid ∧
      some [(⟨1001, 100000, 65536⟩ : IDMap), ⟨0, 1001, 1⟩] =
        some (subuid ++ [⟨0, (⟨1001, 1001⟩ : User).Uid, 1⟩]) ∧
      ∃ r, some [(⟨0, 1001, 1⟩ : IDMap)] = some (subgid ++ [r]) ∧
        r.ContainerID = 0 ∧ r.Size = 1 :=
  C7_root_ranges aliceEnv "alice".toList "staff".toList ⟨1001, 1001⟩
    (some [⟨1001, 100000, 65536⟩, ⟨0, 1001, 1⟩]) (some [⟨0, 1001, 1⟩])
    (by decide) (by decide)

/-! ## Parsing a file of well-formed lines -/

theorem isSpace_of_digit (c : Char) (h : 48 ≤ c.toNat ∧ c.toNat ≤ 57) : isSpace c = false := by
  unfold isSpace
  simp only [Bool.or_eq_false_iff, Bool.and_eq_false_iff, decide_eq_false_iff_not,
    beq_eq_false_iff_ne, ne_eq]
  omega

theorem colon_not_digit (s : List Char) (h : ∀ c ∈ s, 48 ≤ c.toNat ∧ c.toNat ≤ 57) :
    ':' ∉ s := by
  intro hm
  have := h _ hm
  revert this
  decide

theorem TrimRight_decimal (s : List Char) (h : isDecimal s = true) : TrimRight s = s := by
  obtain ⟨hne, hd⟩ := (isDecimal_iff s).1 h
  rcases List.eq_nil_or_concat s with e | ⟨x, c, e⟩
  · exact absurd e hne
  · subst e
    rw [List.concat_eq_append]
    exact TrimRight_of_last x c (isSpace_of_digit c (hd c (by simp)))

theorem TrimSpace_all_space (ws : List Char) (h : ∀ c ∈ ws, isSpace c = true) :
    TrimSpace ws = [] := by
  have : ws.dropWhile isSpace = [] := List.dropWhile_eq_nil_iff.2 h
  unfold TrimSpace
  rw [this]
  rfl

theorem dropWhile_noLeadingSpace (name rest : List Char) (h : noLeadingSpace name = true) :
    (name ++ ':' :: rest).dropWhile isSpace = name ++ ':' :: rest := by
  cases name with
  | nil =>
    have : isSpace ':' = false := by decide
    simp [List.dropWhile, this]
  | cons c n =>
    have hc : isSpace c = false := by simpa [noLeadingSpace] using h
    simp [List.dropWhile, hc]

/-- The fields of a line `name:start:length` as the parser sees them. -/
theorem Split_entry (name start length : List Char) (hn : noLeadingSpace name = true)
    (hc : ':' ∉ name) (hs : isDecimal start = true) (hl : isDecimal length = true) :
    TrimSpace (dropCR (name ++ ':' :: (start ++ ':' :: length))) ≠ [] ∧
    Split (TrimSpace (dropCR (name ++ ':' :: (start ++ ':' :: length)))) ':' =
      [name, start, length] := by
  have hcolon : isSpace ':' = false := by decide
  have e : TrimSpace (dropCR (name ++ ':' :: (start ++ ':' :: length))) =
      name ++ ':' :: (start ++ ':' :: length) := by
    rw [TrimSpace_dropCR, TrimSpace, dropWhile_noLeadingSpace _ _ hn,
      TrimRight_append_stop _ _ _ hcolon, TrimRight_append_stop _ _ _ hcolon,
      TrimRight_decimal _ hl]
  rw [e]
  refine ⟨by simp, ?_⟩
  rw [Split_append_sep _ _ _ hc,
    Split_append_sep _ _ _ (colon_not_digit _ ((isDecimal_iff _).1 hs).2),
    Split_no_sep _ _ (colon_not_digit _ ((isDecimal_iff _).1 hl).2)]

theorem FileLine.hasForm_no_newline (l : FileLine) (h : l.hasForm = true) : '\n' ∉ l.text := by
  cases l with
  | blank ws =>
    simp only [FileLine.hasForm, Bool.and_eq_true, decide_eq_true_eq] at h
    exact h.2
  | entry name start length =>
    simp only [FileLine.hasForm, Bool.and_eq_true, decide_eq_true_eq] at h
    obtain ⟨⟨⟨_, h2⟩, h3⟩, h4⟩ := h
    have d3 := ((isDecimal_iff _).1 h3).2
    have d4 := ((isDecimal_iff _).1 h4).2
    have nl : ∀ s : List Char, (∀ c ∈ s, 48 ≤ c.toNat ∧ c.toNat ≤ 57) → '\n' ∉ s := by
      intro s hs hm
      have := hs _ hm
      revert this
      decide
    simp only [FileLine.text, List.mem_append, List.mem_cons, not_or]
    refine ⟨h2, by decide, nl _ d3, by decide, nl _ d4⟩

/-- One well-formed line within the restrictions adds its reference ranges. -/
theorem subidLineStep_line (env : Env) (path username : List Char) (usr : User)
    (hu : env.LookupUser username = some usr) (l : FileLine) (hf : l.hasForm = true)
    (hr : l.inRange = true) (idMap : List IDMap) :
    subidLineStep env path username (dropCR l.text) idMap =
      .ok (idMap ++ referenceRanges usr.Uid username [l]) := by
  cases l with
  | blank ws =>
    simp only [FileLine.hasForm, Bool.and_eq_true, List.all_eq_true] at hf
    rw [subidLineStep_blank]
    · simp [referenceRanges]
    · rw [FileLine.text, TrimSpace_dropCR]
      exact TrimSpace_all_space ws hf.1
  | entry name start length =>
    simp only [FileLine.hasForm, Bool.and_eq_true, decide_eq_true_eq] at hf
    obtain ⟨⟨⟨hc, _⟩, hs⟩, hl⟩ := hf
    simp only [FileLine.inRange, Bool.and_eq_true, decide_eq_true_eq] at hr
    obtain ⟨_, ⟨hn, hvs⟩, hvl⟩ := hr
    obtain ⟨hne, hsplit⟩ := Split_entry name start length hn hc hs hl
    by_cases hname : name = username
    · subst hname
      have ha := Atoi_decimal start hs hvs
      have hb := Atoi_decimal length hl (by omega)
      rw [FileLine.text, subidLineStep_match env path name _ start length idMap usr _ _ hu hne
        hsplit ha hb]
      have hval : (GoInt.ofInt (decimalValue length)).val = decimalValue length :=
        ofInt_val_of_range _ (by unfold minInt; omega) (by unfold maxInt; omega)
      have hfl : fromFloat64 (toFloat64 (GoInt.ofInt (decimalValue length)).val) =
          GoInt.ofInt (decimalValue length) :=
        fromFloat64_toFloat64 _ (by rw [hval]; omega) (by rw [hval]; omega)
      rw [hfl]
      simp [referenceRanges]
    · rw [FileLine.text, subidLineStep_other env path username _ name start length idMap usr hu
        hne hsplit hname]
      simp [referenceRanges, hname]

theorem referenceRanges_cons (u : GoInt) (username : List Char) (l : FileLine)
    (ls : List FileLine) :
    referenceRanges u username (l :: ls) =
      referenceRanges u username [l] ++ referenceRanges u username ls := by
  cases l with
  | blank ws => simp [referenceRanges]
  | entry name start length =>
    by_cases h : name = username <;> simp [referenceRanges, h]

theorem parseSubidLines_lines (env : Env) (path username : List Char) (usr : User)
    (hu : env.LookupUser username = some usr) (ls : List FileLine)
    (hf : ∀ l ∈ ls, l.hasForm = true) (hr : ∀ l ∈ ls, l.inRange = true) (idMap : List IDMap) :
    parseSubidLines env path username (ls.map (fun l => dropCR l.text)) idMap =
      .ok (idMap ++ referenceRanges usr.Uid username ls) := by
  induction ls generalizing idMap with
  | nil => simp [parseSubidLines, referenceRanges]
  | cons l ls ih =>
    rw [List.map_cons, parseSubidLines_cons,
      subidLineStep_line env path username usr hu l (hf l (List.mem_cons_self _ _))
        (hr l (List.mem_cons_self _ _))]
    simp only
    rw [ih (fun x hx => hf x (List.mem_cons_of_mem _ hx))
      (fun x hx => hr x (List.mem_cons_of_mem _ hx)),
      referenceRanges_cons usr.Uid username l ls, List.append_assoc]

theorem referenceRanges_append (u : GoInt) (username : List Char) (a b : List FileLine) :
    referenceRanges u username (a ++ b) =
      referenceRanges u username a ++ referenceRanges u username b := by
  induction a with
  | nil => simp [referenceRanges]
  | cons l a ih =>
    rw [List.cons_append, referenceRanges_cons u username l (a ++ b), ih,
      referenceRanges_cons u username l a, List.append_assoc]

/-- The tokens of a file of lines that hold no newline and fit in the buffer. -/
theorem scanTokens_fileText (ls : List FileLine) (last : Option FileLine)
    (hnl : ∀ l ∈ ls ++ last.toList, '\n' ∉ l.text)
    (hlen : ∀ l ∈ ls ++ last.toList, byteLen l.text < MaxScanTokenSize) :
    scanTokens 0 [] (fileText ls last) =
      ls.map (fun l => dropCR l.text) ++ lastLineTokens last := by
  induction ls with
  | nil =>
    cases last with
    | none => simp [fileText, scanTokens, lastLineTokens]
    | some l =>
      have h1 := hnl l (by simp)
      have h2 := hlen l (by simp)
      simp only [fileText, List.map_nil, List.nil_append, lastLineTokens]
      rw [scanTokens_last l.text 0 [] h1 (by omega)]
      simp
  | cons l ls ih =>
    have h1 := hnl l (by simp)
    have h2 := hlen l (by simp)
    rw [fileText, scanTokens_line l.text _ 0 [] h1 (by omega),
      ih (fun x hx => hnl x (by simp at hx ⊢; exact Or.inr hx))
        (fun x hx => hlen x (by simp at hx ⊢; exact Or.inr hx))]
    simp

theorem FileLine.inRange_fits (l : FileLine) (h : l.inRange = true) :
    byteLen l.text < MaxScanTokenSize := by
  simp only [FileLine.inRange, Bool.and_eq_true, decide_eq_true_eq] at h
  exact h.1

/-- Parsing a file of well-formed lines within the restrictions yields the
reference ranges. -/
theorem parseSubidFile_fileText (env : Env) (path username : List Char) (usr : User)
    (ls : List FileLine) (last : Option FileLine)
    (hu : env.LookupUser username = some usr)
    (hform : ∀ l ∈ ls ++ last.toList, l.hasForm = true)
    (hrange : ∀ l ∈ ls ++ last.toList, l.inRange = true)
    (hopen : env.Open path = some (fileText ls last)) :
    parseSubidFile env path username =
      .ok (referenceRanges usr.Uid username (ls ++ last.toList)) := by
  unfold parseSubidFile
  rw [hopen]
  simp only
  rw [scanTokens_fileText ls last (fun l hl => FileLine.hasForm_no_newline l (hform l hl))
      (fun l hl => FileLine.inRange_fits l (hrange l hl)),
    parseSubidLines_append,
    parseSubidLines_lines env path username usr hu ls
      (fun l hl => hform l (List.mem_append_left _ hl))
      (fun l hl => hrange l (List.mem_append_left _ hl))]
  simp only [List.nil_append]
  rw [referenceRanges_append]
  cases last with
  | none => simp [parseSubidLines, referenceRanges, lastLineTokens]
  | some l =>
    have hf := hform l (by simp)
    have hr := hrange l (by simp)
    by_cases ht : l.text = []
    · rw [lastLineTokens, if_pos ht]
      cases l with
      | blank ws => simp [parseSubidLines, referenceRanges]
      | entry name start length => simp [FileLine.text] at ht
    · rw [lastLineTokens, if_neg ht, parseSubidLines_cons,
        subidLineStep_line env path username usr hu l hf hr]
      simp [parseSubidLines]

theorem withFile_Open (env : Env) (path data : List Char) :
    (env.withFile path data).Open path = some data := by
  simp [Env.withFile]

/-- A file that begins with `MaxScanTokenSize` letters and no newline yields no range and
no error: the scanner stops on the line that is too long, the loop body never
runs, and the error of the scanner is not read. -/
theorem parseSubidFile_too_long (env : Env) (path username rest : List Char) :
    parseSubidFile (env.withFile path (List.replicate MaxScanTokenSize 'a' ++ rest)) path username =
      .ok [] := by
  have hnl : '\n' ∉ List.replicate MaxScanTokenSize 'a' := by
    intro h
    have := (List.mem_replicate.1 h).2
    revert this
    decide
  unfold parseSubidFile
  rw [withFile_Open]
  simp only
  rw [scanTokens_too_long _ rest 0 [] hnl (by decide)
    (by rw [byteLen_replicate_a]; decide)]
  rfl

/-- C8, as stated, fails. (1) A decimal start that no `int` holds is a
conversion error. (2) A length above 2^53 is rounded by the conversion
through `float64`. (3) White space before the name is trimmed, so a line
whose name differs from the username by leading white space yields a range.
(4) A line of 65536 bytes or more stops the scanner, and the lines after it
are dropped without error. -/
theorem C8_counterexample :
    ¬ (∀ (env : Env) (path username : List Char) (usr : User) (ls : List FileLine)
        (last : Option FileLine),
        env.LookupUser username = some usr →
        (∀ l ∈ ls ++ last.toList, l.hasForm = true) →
        env.Open path = some (fileText ls last) →
        parseSubidFile env path username =
          .ok (referenceRanges usr.Uid username (ls ++ last.toList))) ∧
    parseSubidFile (aliceEnv.withFile subuidFileName "alice:9223372036854775808:1\n".toList)
        subuidFileName "alice".toList =
      .error (.conversion subuidFileName ⟨"9223372036854775808".toList, .ErrRange⟩) ∧
    parseSubidFile (aliceEnv.withFile subuidFileName "alice:1:9007199254740993\n".toList)
        subuidFileName "alice".toList = .ok [⟨1001, 1, 9007199254740992⟩] ∧
    (parseSubidFile (aliceEnv.withFile subuidFileName " alice:1:2\n".toList)
        subuidFileName "alice".toList = .ok [⟨1001, 1, 2⟩] ∧
      referenceRanges 1001 "alice".toList [.entry " alice".toList "1".toList "2".toList] = []) ∧
    (parseSubidFile (aliceEnv.withFile subuidFileName
        (List.replicate MaxScanTokenSize 'a' ++ ":1:1\nalice:1:2\n".toList))
        subuidFileName "alice".toList = .ok [] ∧
      List.replicate MaxScanTokenSize 'a' ++ ":1:1\nalice:1:2\n".toList =
        fileText [.entry (List.replicate MaxScanTokenSize 'a') "1".toList "1".toList,
          .entry "alice".toList "1".toList "2".toList] none ∧
      referenceRanges 1001 "alice".toList
        [.entry (List.replicate MaxScanTokenSize 'a') "1".toList "1".toList,
          .entry "alice".toList "1".toList "2".toList] = [⟨1001, 1, 2⟩]) := by
  have e1 : parseSubidFile
      (aliceEnv.withFile subuidFileName "alice:9223372036854775808:1\n".toList)
      subuidFileName "alice".toList =
      .error (.conversion subuidFileName ⟨"9223372036854775808".toList, .ErrRange⟩) := by
    decide
  refine ⟨fun H => ?_, e1, by decide, ⟨by decide, by decide⟩,
    ⟨parseSubidFile_too_long aliceEnv subuidFileName "alice".toList _, ?_, ?_⟩⟩
  · have h := H (aliceEnv.withFile subuidFileName "alice:9223372036854775808:1\n".toList)
      subuidFileName "alice".toList ⟨1001, 1001⟩
      [.entry "alice".toList "9223372036854775808".toList "1".toList] none
      (by decide) (by decide) (by decide)
    rw [e1] at h
    cases h
  · simp only [fileText, FileLine.text, List.append_assoc, List.cons_append,
      List.nil_append, String.toList]
  · have hne : ¬ (List.replicate MaxScanTokenSize 'a' = "alice".toList) := by
      intro h
      have := congrArg List.length h
      rw [List.length_replicate] at this
      revert this
      decide
    simp only [referenceRanges, if_neg hne, if_true]
    decide

/-- C8, amended: for every username that resolves to the numeric id u and
every file whose lines each take fewer than 65536 bytes and whose non-blank
lines all have the form name:start:length, with a name that does not begin
with white space, a decimal start of at most 2^63-1 and a decimal length of at
most 2^53, `parseSubidFile` succeeds and returns exactly the list of ranges
{containerID: u, hostID: start, size: length}, one per line whose name equals
the username, in file order. -/
theorem C8_parse_equals_reference (env : Env) (path username : List Char) (usr : User)
    (ls : List FileLine) (last : Option FileLine)
    (hu : env.LookupUser username = some usr)
    (hform : ∀ l ∈ ls ++ last.toList, l.hasForm = true)
    (hrange : ∀ l ∈ ls ++ last.toList, l.inRange = true)
    (hopen : env.Open path = some (fileText ls last)) :
    parseSubidFile env path username =
      .ok (referenceRanges usr.Uid username (ls ++ last.toList)) :=
  parseSubidFile_fileText env path username usr ls last hu hform hrange hopen

/-- Witness of C8 (amended): the file `"alice:100000:65536\n"`, with alice
resolving to 1001, yields [{1001, 100000, 65536}]. -/
theorem C8_parse_equals_reference_witness :
    fileText [.entry "alice".toList "100000".toList "65536".toList] none =
        "alice:100000:65536\n".toList ∧
      parseSubidFile aliceEnv subuidFileName "alice".toList = .ok [⟨1001, 100000, 65536⟩] :=
  ⟨by decide,
   C8_parse_equals_reference aliceEnv subuidFileName "alice".toList ⟨1001, 1001⟩
    [.entry "alice".toList "100000".toList "65536".toList] none
    (by decide) (by decide) (by decide) (by decide)⟩

/-! ## Lines for other users -/

theorem mem_TrimRight (c : Char) (s : List Char) (h : c ∈ TrimRight s) : c ∈ s := by
  unfold TrimRight at h
  rw [List.mem_reverse] at h
  exact List.mem_reverse.1 ((List.dropWhile_suffix isSpace).subset h)

/-- The fields of a three-field line as the parser sees them. -/
theorem Split_three_fields (name start len : List Char) (hn : noLeadingSpace name = true)
    (hc : ':' ∉ name ++ (start ++ len)) :
    TrimSpace (dropCR (name ++ ':' :: (start ++ ':' :: len))) ≠ [] ∧
    Split (TrimSpace (dropCR (name ++ ':' :: (start ++ ':' :: len)))) ':' =
      [name, start, TrimRight len] := by
  have hcolon : isSpace ':' = false := by decide
  simp only [List.mem_append, not_or] at hc
  obtain ⟨h1, h2, h3⟩ := hc
  have e : TrimSpace (dropCR (name ++ ':' :: (start ++ ':' :: len))) =
      name ++ ':' :: (start ++ ':' :: TrimRight len) := by
    rw [TrimSpace_dropCR, TrimSpace, dropWhile_noLeadingSpace _ _ hn,
      TrimRight_append_stop _ _ _ hcolon, TrimRight_append_stop _ _ _ hcolon]
  rw [e]
  refine ⟨by simp, ?_⟩
  rw [Split_append_sep _ _ _ h1, Split_append_sep _ _ _ h2,
    Split_no_sep _ _ (fun h => h3 (mem_TrimRight _ _ h))]

/-- A line for another user leaves the slice as it is, when the user is found. -/
theorem subidLineStep_isOtherUser (env : Env) (path username : List Char) (usr : User)
    (hu : env.LookupUser username = some usr) (l : FileLine)
    (ho : l.isOtherUser username = true) (hp : l.isPlain = true) (idMap : List IDMap) :
    subidLineStep env path username (dropCR l.text) idMap = .ok idMap := by
  cases l with
  | blank ws => simp [FileLine.isOtherUser] at ho
  | entry name start len =>
    simp only [FileLine.isOtherUser, Bool.and_eq_true, decide_eq_true_eq] at ho
    simp only [FileLine.isPlain, Bool.and_eq_true, decide_eq_true_eq] at hp
    obtain ⟨hne, hs⟩ := Split_three_fields name start len hp.2 ho.1.1
    exact subidLineStep_other env path username _ name start (TrimRight len) idMap usr hu hne hs
      ho.2

theorem subidLineStep_withFile (env : Env) (p d path username line : List Char)
    (idMap : List IDMap) :
    subidLineStep (env.withFile p d) path username line idMap =
      subidLineStep env path username line idMap := rfl

/-- The loop reads the environment through the user database only. -/
theorem parseSubidLines_withFile (env : Env) (p d path username : List Char)
    (toks : List (List Char)) (idMap : List IDMap) :
    parseSubidLines (env.withFile p d) path username toks idMap =
      parseSubidLines env path username toks idMap := by
  induction toks generalizing idMap with
  | nil => rfl
  | cons line rest ih =>
    rw [parseSubidLines_cons, parseSubidLines_cons, subidLineStep_withFile]
    cases subidLineStep env path username line idMap with
    | error e => rfl
    | ok m => exact ih m

theorem scanTokens_boundary (pre : List Char) (hpre : pre = [] ∨ pre.getLast? = some '\n') :
    ∃ (toks : List (List Char)) (stopped : Bool), ∀ rest,
      scanTokens 0 [] (pre ++ rest) =
        toks ++ (if stopped = true then [] else scanTokens 0 [] rest) := by
  rcases hpre with e | e
  · subst e
    exact ⟨[], false, fun rest => by simp⟩
  · exact scanTokens_prefix pre e 0 []

/-- Insertion of a line for another user at a line boundary, when the user
is found: the result of the parse is the same. -/
theorem parseSubidFile_insert (env : Env) (path username : List Char) (usr : User)
    (hu : env.LookupUser username = some usr) (pre post : List Char) (l : FileLine)
    (hpre : pre = [] ∨ pre.getLast? = some '\n')
    (ho : l.isOtherUser username = true) (hp : l.isPlain = true) :
    parseSubidFile (env.withFile path (pre ++ (l.text ++ '\n' :: post))) path username =
      parseSubidFile (env.withFile path (pre ++ post)) path username := by
  obtain ⟨toks, stopped, h⟩ := scanTokens_boundary pre hpre
  have hnl : '\n' ∉ l.text := by
    cases l with
    | blank ws => simp [FileLine.isOtherUser] at ho
    | entry name start len =>
      simp only [FileLine.isOtherUser, Bool.and_eq_true, decide_eq_true_eq, List.mem_append,
        not_or] at ho
      simp only [FileLine.text, List.mem_append, List.mem_cons, not_or]
      exact ⟨ho.1.2.1, by decide, ho.1.2.2.1, by decide, ho.1.2.2.2⟩
  have hfit : byteLen l.text < MaxScanTokenSize := by
    cases l with
    | blank ws => simp [FileLine.isOtherUser] at ho
    | entry name start len =>
      simp only [FileLine.isPlain, Bool.and_eq_true, decide_eq_true_eq] at hp
      exact hp.1
  unfold parseSubidFile
  rw [withFile_Open, withFile_Open]
  simp only
  rw [h, h, parseSubidLines_withFile, parseSubidLines_withFile]
  cases stopped with
  | true => rfl
  | false =>
    simp only [Bool.false_eq_true, if_false]
    rw [scanTokens_line l.text post 0 [] hnl (by omega), parseSubidLines_append,
      parseSubidLines_append]
    cases parseSubidLines env path username toks [] with
    | error e => rfl
    | ok m =>
      simp only
      rw [parseSubidLines_cons, List.nil_append,
        subidLineStep_isOtherUser env path username usr hu l ho hp m]

theorem parseSubidFile_empty (env : Env) (path username : List Char) :
    parseSubidFile (env.withFile path []) path username = .ok [] := by
  unfold parseSubidFile
  rw [withFile_Open]
  rfl

/-- C9, as stated, fails. (1) The user is looked up on every three-field
line, before the name is compared: when the username does not resolve, a line
for another user turns a successful parse into an error, and a file of such
lines does not parse. (2) White space before the name is trimmed: the line
` alice:1:2` is a line of alice, though its name differs from the username.
(3) A line of 65536 bytes or more stops the scanner: the lines after it are
dropped. -/
theorem C9_counterexample :
    ¬ (∀ (env : Env) (path username pre post : List Char) (l : FileLine),
        (pre = [] ∨ pre.getLast? = some '\n') → l.isOtherUser username = true →
        parseSubidFile (env.withFile path (pre ++ (l.text ++ '\n' :: post))) path username =
          parseSubidFile (env.withFile path (pre ++ post)) path username) ∧
    ¬ (∀ (env : Env) (path username : List Char) (ls : List FileLine),
        (∀ l ∈ ls, l.isOtherUser username = true) →
        parseSubidFile (env.withFile path (fileText ls none)) path username = .ok []) ∧
    (parseSubidFile (emptyEnv.withFile subuidFileName []) subuidFileName "ghost".toList =
        .ok [] ∧
      parseSubidFile (emptyEnv.withFile subuidFileName "bob:1:2\n".toList) subuidFileName
        "ghost".toList = .error (.userLookup "ghost".toList)) ∧
    (parseSubidFile (aliceEnv.withFile subuidFileName []) subuidFileName "alice".toList =
        .ok [] ∧
      parseSubidFile (aliceEnv.withFile subuidFileName " alice:1:2\n".toList) subuidFileName
        "alice".toList = .ok [⟨1001, 1, 2⟩]) ∧
    (parseSubidFile (aliceEnv.withFile subuidFileName "alice:1:2\n".toList) subuidFileName
        "alice".toList = .ok [⟨1001, 1, 2⟩] ∧
      parseSubidFile (aliceEnv.withFile subuidFileName
        (List.replicate MaxScanTokenSize 'a' ++ ":1:1\nalice:1:2\n".toList)) subuidFileName
        "alice".toList = .ok []) := by
  have e1 : parseSubidFile (emptyEnv.withFile subuidFileName []) subuidFileName
      "ghost".toList = .ok [] := by decide
  have e2 : parseSubidFile (emptyEnv.withFile subuidFileName "bob:1:2\n".toList)
      subuidFileName "ghost".toList = .error (.userLookup "ghost".toList) := by decide
  refine ⟨fun H => ?_, fun H => ?_, ⟨e1, e2⟩, ⟨by decide, by decide⟩,
    ⟨by decide, parseSubidFile_too_long aliceEnv subuidFileName "alice".toList _⟩⟩
  · have h := H emptyEnv subuidFileName "ghost".toList [] []
      (.entry "bob".toList "1".toList "2".toList) (Or.inl rfl) (by decide)
    have e3 : ([] : List Char) ++
        ((FileLine.entry "bob".toList "1".toList "2".toList).text ++ '\n' :: []) =
        "bob:1:2\n".toList := by decide
    rw [e3, List.append_nil, e1, e2] at h
    cases h
  · have h := H emptyEnv subuidFileName "ghost".toList
      [.entry "bob".toList "1".toList "2".toList] (by decide)
    have e3 : fileText [.entry "bob".toList "1".toList "2".toList] none =
        "bob:1:2\n".toList := by decide
    rw [e3, e2] at h
    cases h

/-- C9, amended: for every username that resolves and every file content,
inserting at a line boundary a three-field line name:start:length that takes
fewer than 65536 bytes and whose name does not begin with white space and
differs from the username leaves the result of `parseSubidFile` unchanged
(same ranges, or same failure); in particular a file that consists only of
such lines parses successfully to an empty sequence of ranges. -/
theorem C9_other_users_skipped (env : Env) (path username : List Char) (usr : User)
    (hu : env.LookupUser username = some usr) :
    (∀ (pre post : List Char) (l : FileLine),
      (pre = [] ∨ pre.getLast? = some '\n') →
      l.isOtherUser username = true → l.isPlain = true →
      parseSubidFile (env.withFile path (pre ++ (l.text ++ '\n' :: post))) path username =
        parseSubidFile (env.withFile path (pre ++ post)) path username) ∧
    (∀ (ls : List FileLine),
      (∀ l ∈ ls, l.isOtherUser username = true ∧ l.isPlain = true) →
      parseSubidFile (env.withFile path (fileText ls none)) path username = .ok []) := by
  refine ⟨fun pre post l hpre ho hp =>
    parseSubidFile_insert env path username usr hu pre post l hpre ho hp, ?_⟩
  intro ls
  induction ls with
  | nil => intro _; exact parseSubidFile_empty env path username
  | cons l ls ih =>
    intro h
    have hl := h l (List.mem_cons_self _ _)
    have e := parseSubidFile_insert env path username usr hu [] (fileText ls none) l
      (Or.inl rfl) hl.1 hl.2
    simp only [List.nil_append] at e
    rw [fileText, e]
    exact ih (fun x hx => h x (List.mem_cons_of_mem _ hx))

/-- Witness of C9 (amended): a line of bob put before the line of alice, and
a file that holds lines of bob and carol only, parsed for alice. -/
theorem C9_other_users_skipped_witness :
    parseSubidFile (aliceEnv.withFile subuidFileName
        ([] ++ ((FileLine.entry "bob".toList "1".toList "2".toList).text ++
          '\n' :: "alice:100000:65536\n".toList))) subuidFileName "alice".toList =
      parseSubidFile (aliceEnv.withFile subuidFileName ([] ++ "alice:100000:65536\n".toList))
        subuidFileName "alice".toList ∧
    parseSubidFile (aliceEnv.withFile subuidFileName
        (fileText [.entry "bob".toList "1".toList "2".toList,
          .entry "carol".toList "x".toList "".toList] none)) subuidFileName "alice".toList =
      .ok [] :=
  ⟨(C9_other_users_skipped aliceEnv subuidFileName "alice".toList ⟨1001, 1001⟩
      (by decide)).1 [] "alice:100000:65536\n".toList
      (.entry "bob".toList "1".toList "2".toList) (Or.inl rfl) (by decide) (by decide),
   (C9_other_users_skipped aliceEnv subuidFileName "alice".toList ⟨1001, 1001⟩
      (by decide)).2 [.entry "bob".toList "1".toList "2".toList,
        .entry "carol".toList "x".toList "".toList] (by decide)⟩

/-! ## Malformed lines -/

theorem parseUintLoop_not_digits (maxVal : Nat) (s : List Char) (n : Nat)
    (h : ∃ c ∈ s, ¬ (48 ≤ c.toNat ∧ c.toNat ≤ 57)) :
    ∃ k, parseUintLoop maxVal n s = .error k := by
  induction s generalizing n with
  | nil => obtain ⟨c, hc, _⟩ := h; cases hc
  | cons d ds ih =>
    rw [parseUintLoop]
    by_cases hd : 48 ≤ d.toNat ∧ d.toNat ≤ 57
    · rw [if_pos hd]
      by_cases hr : n * 10 + (d.toNat - 48) > maxVal
      · rw [if_pos hr]; exact ⟨_, rfl⟩
      · rw [if_neg hr]
        obtain ⟨c, hc, hnd⟩ := h
        rcases List.mem_cons.1 hc with e | e
        · subst e; exact absurd hd hnd
        · exact ih _ ⟨c, e, hnd⟩
    · rw [if_neg hd]; exact ⟨_, rfl⟩

theorem ParseUint_not_decimal (s : List Char) (bitSize : Nat) (h : isDecimal s = false) :
    ∃ k, ParseUint s bitSize = .error k := by
  cases s with
  | nil => exact ⟨_, rfl⟩
  | cons c cs =>
    have hnd : ∃ d ∈ c :: cs, ¬ (48 ≤ d.toNat ∧ d.toNat ≤ 57) := by
      by_contra hcon
      have hall : ∀ d ∈ c :: cs, 48 ≤ d.toNat ∧ d.toNat ≤ 57 := by
        intro d hd
        by_contra hx
        exact hcon ⟨d, hd, hx⟩
      have : isDecimal (c :: cs) = true := (isDecimal_iff _).2 ⟨by simp, hall⟩
      rw [this] at h
      cases h
    exact parseUintLoop_not_digits _ (c :: cs) 0 hnd

theorem parseIntSigned_not_decimal (s0 s : List Char) (neg : Bool) (bitSize : Nat)
    (h : isDecimal s = false) : ∃ e, parseIntSigned s0 neg s bitSize = .error e := by
  obtain ⟨k, hk⟩ := ParseUint_not_decimal s bitSize h
  unfold parseIntSigned
  rw [hk]
  cases k <;> exact ⟨_, rfl⟩

/-- A string that is no decimal integer does not convert. -/
theorem Atoi_not_decimalInteger (s : List Char) (h : isDecimalInteger s = false) :
    ∃ e, Atoi s = .error e := by
  have hp : ∃ e, ParseInt s 64 = .error e := by
    cases s with
    | nil => exact ⟨_, rfl⟩
    | cons c cs =>
      simp only [isDecimalInteger] at h
      simp only [ParseInt]
      by_cases h1 : c = '+'
      · rw [if_pos h1]
        rw [if_pos (Or.inl h1)] at h
        exact parseIntSigned_not_decimal _ _ _ _ h
      · rw [if_neg h1]
        by_cases h2 : c = '-'
        · rw [if_pos h2]
          rw [if_pos (Or.inr h2)] at h
          exact parseIntSigned_not_decimal _ _ _ _ h
        · rw [if_neg h2]
          rw [if_neg (by simp [h1, h2])] at h
          exact parseIntSigned_not_decimal _ _ _ _ h
  obtain ⟨e, he⟩ := hp
  unfold Atoi
  rw [he]
  exact ⟨_, rfl⟩

/-- The body of the loop fails on a malformed line. -/
theorem subidLineStep_malformed (env : Env) (path username line : List Char)
    (idMap : List IDMap) (h : isMalformed username line = true) :
    ∃ e, subidLineStep env path username line idMap = .error e := by
  unfold isMalformed at h
  rw [Bool.and_eq_true, decide_eq_true_eq] at h
  obtain ⟨hne, hm⟩ := h
  unfold subidLineStep
  rw [if_neg hne]
  split
  · rename_i name start len hs
    rw [hs] at hm
    simp only [Bool.and_eq_true, decide_eq_true_eq, Bool.or_eq_true, Bool.not_eq_true'] at hm
    obtain ⟨hname, hdec⟩ := hm
    cases hu : env.LookupUser username with
    | none => exact ⟨_, rfl⟩
    | some usr =>
      simp only [if_pos hname]
      cases ha : Atoi start with
      | error e => exact ⟨_, rfl⟩
      | ok a =>
        rcases hdec with hd | hd
        · obtain ⟨e, he⟩ := Atoi_not_decimalInteger start hd
          rw [he] at ha
          cases ha
        · obtain ⟨e, he⟩ := Atoi_not_decimalInteger len hd
          simp only [he]
          exact ⟨_, rfl⟩
  · exact ⟨_, rfl⟩

theorem parseSubidLines_malformed (env : Env) (path username : List Char)
    (toks : List (List Char)) (idMap : List IDMap)
    (h : ∃ line ∈ toks, isMalformed username line = true) :
    ∃ e, parseSubidLines env path username toks idMap = .error e := by
  induction toks generalizing idMap with
  | nil => obtain ⟨l, hl, _⟩ := h; cases hl
  | cons line rest ih =>
    rw [parseSubidLines_cons]
    cases hstep : subidLineStep env path username line idMap with
    | error e => exact ⟨e, rfl⟩
    | ok m =>
      obtain ⟨l, hl, hbad⟩ := h
      rcases List.mem_cons.1 hl with e | e
      · subst e
        obtain ⟨e2, he2⟩ := subidLineStep_malformed env path username l idMap hbad
        rw [he2] at hstep
        cases hstep
      · exact ih m ⟨l, e, hbad⟩

/-- C10 on the lines the scanner yields: when one of them is malformed,
`parseSubidFile` returns an error, whatever the other lines are. -/
theorem parseSubidFile_malformed (env : Env) (path username data : List Char)
    (hopen : env.Open path = some data)
    (h : ∃ line ∈ scanTokens 0 [] data, isMalformed username line = true) :
    ∃ e, parseSubidFile env path username = .error e := by
  unfold parseSubidFile
  rw [hopen]
  exact parseSubidLines_malformed env path username _ [] h

theorem TrimSpace_replicate_a (k : Nat) :
    TrimSpace (List.replicate k 'a') = List.replicate k 'a' := by
  have ha : isSpace 'a' = false := by decide
  cases k with
  | zero => rfl
  | succ k =>
    have e1 : (List.replicate (k + 1) 'a').dropWhile isSpace = List.replicate (k + 1) 'a' := by
      rw [List.replicate_succ]
      simp [List.dropWhile, ha]
    have e2 : List.replicate (k + 1) 'a' = List.replicate k 'a' ++ ['a'] := by
      rw [← List.replicate_succ']
    rw [TrimSpace, e1, e2]
    exact TrimRight_of_last _ _ ha

/-- C10 at the failing input: the file that holds `MaxScanTokenSize` (65536)
letters `a` holds one line, which is not blank and has one field, not three;
`parseSubidFile` returns an empty slice and no error. And a file whose
first line is well-formed and whose second line is such a line yields the
range of the first line and no error. -/
theorem C10_too_long_line_not_reported :
    parseSubidFile (aliceEnv.withFile subuidFileName (List.replicate MaxScanTokenSize 'a'))
        subuidFileName "alice".toList = .ok [] ∧
    isMalformed "alice".toList (List.replicate MaxScanTokenSize 'a') = true ∧
    parseSubidFile (aliceEnv.withFile subuidFileName
        ("alice:100000:65536".toList ++ '\n' :: (List.replicate MaxScanTokenSize 'a' ++ [])))
        subuidFileName "alice".toList = .ok [⟨1001, 100000, 65536⟩] := by
  have hnc : ':' ∉ List.replicate MaxScanTokenSize 'a' := by
    intro h
    have := (List.mem_replicate.1 h).2
    revert this
    decide
  have hnl : '\n' ∉ List.replicate MaxScanTokenSize 'a' := by
    intro h
    have := (List.mem_replicate.1 h).2
    revert this
    decide
  refine ⟨?_, ?_, ?_⟩
  · have h := parseSubidFile_too_long aliceEnv subuidFileName "alice".toList []
    rwa [List.append_nil] at h
  · have hne : List.replicate MaxScanTokenSize 'a' ≠ [] := by
      intro h
      have := congrArg List.length h
      rw [List.length_replicate] at this
      revert this
      decide
    unfold isMalformed
    rw [TrimSpace_replicate_a, Split_no_sep _ _ hnc]
    simp [hne]
  · unfold parseSubidFile
    rw [withFile_Open]
    simp only
    rw [scanTokens_line _ _ 0 [] (by decide) (by decide),
      scanTokens_too_long _ [] 0 [] hnl (by decide) (by rw [byteLen_replicate_a]; decide)]
    decide

/-! ## Well-formed ranges -/

/-- A decimal number below 2^31 converts to its value at 32 bits. -/
theorem ParseInt_decimal32 (s : List Char) (hs : isDecimal s = true)
    (hv : decimalValue s ≤ 2147483647) : ParseInt s 32 = .ok (decimalValue s : Int) := by
  obtain ⟨hne, hd⟩ := (isDecimal_iff s).1 hs
  cases s with
  | nil => exact absurd rfl hne
  | cons c cs =>
    have hc := hd c (List.mem_cons_self _ _)
    have h1 : ¬ c = '+' := by
      intro e; rw [e] at hc; revert hc; decide
    have h2 : ¬ c = '-' := by
      intro e; rw [e] at hc; revert hc; decide
    have hu : parseUintLoop (2 ^ 32 - 1) 0 (c :: cs) = .ok (decimalValue (c :: cs)) :=
      parseUintLoop_digits _ (c :: cs) 0 hd (by unfold decimalValue at hv; exact Nat.le_trans hv (by norm_num))
    have hcut : ¬ (2147483648 ≤ decimalValue (c :: cs)) := by omega
    simp only [ParseInt, if_neg h1, if_neg h2, parseIntSigned, ParseUint, hu]
    simp [hcut]

theorem Split_decimal (s : List Char) (hs : isDecimal s = true) : Split s ':' = [s] :=
  Split_no_sep s ':' (colon_not_digit s ((isDecimal_iff s).1 hs).2)

/-- A spec made of one decimal number below 2^31. -/
theorem parseRemappedRoot_uid (env : Env) (addUser : List Char → Option (GoInt × GoInt))
    (s : List Char) (hs : isDecimal s = true) (hv : decimalValue s ≤ 2147483647) :
    parseRemappedRoot env addUser s =
      .ok (GoInt.ofInt (decimalValue s), GoInt.ofInt (decimalValue s)) := by
  unfold parseRemappedRoot
  simp only [Split_decimal s hs, List.length_singleton, List.getD_cons_zero,
    ParseInt_decimal32 s hs hv, resolveGroupPart]
  simp

/-- A spec made of two decimal numbers below 2^31. -/
theorem parseRemappedRoot_uid_gid (env : Env) (addUser : List Char → Option (GoInt × GoInt))
    (s t : List Char) (hs : isDecimal s = true) (hv : decimalValue s ≤ 2147483647)
    (ht : isDecimal t = true) (hw : decimalValue t ≤ 2147483647) :
    parseRemappedRoot env addUser (s ++ ':' :: t) =
      .ok (GoInt.ofInt (decimalValue s), GoInt.ofInt (decimalValue t)) := by
  have hsplit : Split (s ++ ':' :: t) ':' = [s, t] := by
    rw [Split_append_sep _ _ _ (colon_not_digit s ((isDecimal_iff s).1 hs).2), Split_decimal t ht]
  unfold parseRemappedRoot
  simp only [hsplit, List.length_cons, List.length_nil, List.getD_cons_zero,
    ParseInt_decimal32 s hs hv, resolveGroupPart]
  simp [ParseInt_decimal32 t ht hw]

/-- C12: for all integers n, m with 0 ≤ n, m ≤ 2^31 - 1, `parseRemappedRoot`
applied to the decimal string of n returns (n, n) without error, and applied
to "n:m" returns (n, m) without error, whatever the user and group lookups
and the provisioning function are: none of them is consulted. -/
theorem C12_numeric_specs (env : Env) (addUser : List Char → Option (GoInt × GoInt))
    (n m : Nat) (hn : n ≤ 2147483647) (hm : m ≤ 2147483647) :
    parseRemappedRoot env addUser (Nat.toDigits 10 n) = .ok (GoInt.ofInt n, GoInt.ofInt n) ∧
    parseRemappedRoot env addUser (Nat.toDigits 10 n ++ ':' :: Nat.toDigits 10 m) =
      .ok (GoInt.ofInt n, GoInt.ofInt m) := by
  obtain ⟨hs, hv⟩ := toDigits_decimal n
  obtain ⟨ht, hw⟩ := toDigits_decimal m
  have e1 := parseRemappedRoot_uid env addUser _ hs (by rw [hv]; exact hn)
  have e2 := parseRemappedRoot_uid_gid env addUser _ _ hs (by rw [hv]; exact hn) ht
    (by rw [hw]; exact hm)
  rw [hv] at e1 e2
  rw [hw] at e2
  exact ⟨e1, e2⟩

/-- Witness of C12: "1000" yields (1000, 1000) and "1000:2000" yields
(1000, 2000), on a host where no name resolves and no account can be made. -/
theorem C12_numeric_specs_witness :
    (Nat.toDigits 10 1000 = "1000".toList ∧
      Nat.toDigits 10 1000 ++ ':' :: Nat.toDigits 10 2000 = "1000:2000".toList) ∧
    parseRemappedRoot emptyEnv AddRemappedRootUser "1000".toList = .ok (1000, 1000) ∧
    parseRemappedRoot emptyEnv AddRemappedRootUser "1000:2000".toList = .ok (1000, 2000) :=
  ⟨⟨by decide, by decide⟩,
   C12_numeric_specs emptyEnv AddRemappedRootUser 1000 2000 (by decide) (by decide)⟩


theorem Split_length (s : List Char) (sep : Char) :
    (Split s sep).length = s.count sep + 1 := by
  induction s with
  | nil => rfl
  | cons c cs ih =>
    rw [Split]
    by_cases h : c = sep
    · rw [if_pos h, List.length_cons, ih, h, List.count_cons_self]
    · rw [if_neg h]
      have hc : List.count sep (c :: cs) = List.count sep cs := by
        rw [List.count_cons]
        simp [h]
      rw [hc, ← ih]
      cases hsp : Split cs sep with
      | nil => rw [hsp] at ih; simp at ih
      | cons p ps => simp

/-- C13: every spec string that contains two or more `:` characters (more
than two colon-separated components) makes `parseRemappedRoot` fail with the
invalid-specification error, whatever the components are and whatever the
lookups and the provisioning function return. -/
theorem C13_overlong_spec_rejected (env : Env)
    (addUser : List Char → Option (GoInt × GoInt)) (usergrp : List Char)
    (h : 2 ≤ usergrp.count ':') :
    parseRemappedRoot env addUser usergrp = .error (.invalidSpec usergrp) := by
  have hl : (Split usergrp ':').length > 2 := by
    rw [Split_length]
    omega
  unfold parseRemappedRoot
  simp only [hl, if_true]

/-- Witness of C13: the spec "a:b:c", on a host where every name resolves to
the id 7 and every account can be made. -/
theorem C13_overlong_spec_rejected_witness :
    parseRemappedRoot ⟨fun _ => some ⟨7, 7⟩, fun _ => some ⟨7⟩, fun _ => none⟩
        (fun _ => some (7, 7)) "a:b:c".toList = .error (.invalidSpec "a:b:c".toList) :=
  C13_overlong_spec_rejected _ _ "a:b:c".toList (by decide)

/-- C14 at the failing inputs: `strconv.ParseInt(s, 10, 32)` reads a signed
number, so the spec "-5" resolves to the uid and gid -5 and the spec
"1000:-1" to the gid -1, without any lookup; and the uid 2^31, a 32-bit
unsigned value, is not read as a number but looked up as a user name. -/
theorem C14_negative_ids_accepted :
    parseRemappedRoot emptyEnv AddRemappedRootUser "-5".toList = .ok (-5, -5) ∧
    parseRemappedRoot emptyEnv AddRemappedRootUser "1000:-1".toList = .ok (1000, -1) ∧
    ¬ ((0 : GoInt) ≤ -5) ∧
    parseRemappedRoot emptyEnv AddRemappedRootUser "2147483648".toList =
      .error (.uidLookup "2147483648".toList) := by
  refine ⟨by decide, by decide, by decide, by decide⟩

/-- C15, as stated, fails on a spec of more than two components: for
"default:a:b", when the account dockroot is not found and provisioning would
return (1500, 1500), the result is the invalid-specification error, not the
ids of provisioning; nothing is looked up or provisioned. -/
theorem C15_counterexample :
    ¬ (∀ (env : Env) (addUser : List Char → Option (GoInt × GoInt)) (usergrp : List Char),
        isNumeric (firstComponent usergrp) = false →
        firstComponent usergrp = defaultIDSpecifier →
        env.LookupUser defaultRemappedID = none →
        parseRemappedRoot env addUser usergrp =
          match addUser defaultRemappedID with
          | some ids => .ok ids
          | none => .error (.userCreation defaultRemappedID)) ∧
    parseRemappedRoot emptyEnv addDockroot "default:a:b".toList =
      .error (.invalidSpec "default:a:b".toList) ∧
    addDockroot defaultRemappedID = some (1500, 1500) := by
  have e : parseRemappedRoot emptyEnv addDockroot "default:a:b".toList =
      .error (.invalidSpec "default:a:b".toList) := by decide
  refine ⟨fun H => ?_, e, by decide⟩
  have h := H emptyEnv addDockroot "default:a:b".toList (by decide) (by decide) (by decide)
  rw [e] at h
  revert h
  decide

/-- C15, amended: for every spec of at most two colon-separated components
whose first component is non-numeric, (i) if the first component is not
"default" and the user lookup of it fails, `parseRemappedRoot` fails with an
error that does not depend on the provisioning function (which is not
invoked); (ii) if the first component is "default", the name looked up is
"dockroot", and when that lookup fails the result is exactly the (uid, gid)
returned by provisioning "dockroot" if provisioning succeeds, and an error if
it fails; (iii) if the lookup succeeds and no second component is given, the
result is (uid of the looked-up user, gid of the group with the same
looked-up name), and an error if that group lookup fails. -/
theorem C15_lookup_and_provisioning (env : Env)
    (addUser : List Char → Option (GoInt × GoInt)) (usergrp : List Char)
    (hlen : (Split usergrp ':').length ≤ 2)
    (hnum : isNumeric (firstComponent usergrp) = false) :
    (firstComponent usergrp ≠ defaultIDSpecifier →
      env.LookupUser (firstComponent usergrp) = none →
      ∀ addUser2 : List Char → Option (GoInt × GoInt),
        parseRemappedRoot env addUser2 usergrp =
          .error (.uidLookup (firstComponent usergrp))) ∧
    (firstComponent usergrp = defaultIDSpecifier →
      env.LookupUser defaultRemappedID = none →
      parseRemappedRoot env addUser usergrp =
        match addUser defaultRemappedID with
        | some ids => .ok ids
        | none => .error (.userCreation defaultRemappedID)) ∧
    (∀ (lookupID : List Char) (luser : User), (Split usergrp ':').length = 1 →
      lookupID = (if firstComponent usergrp = defaultIDSpecifier then defaultRemappedID
        else firstComponent usergrp) →
      env.LookupUser lookupID = some luser →
      parseRemappedRoot env addUser usergrp =
        match env.LookupGroup lookupID with
        | some group => .ok (luser.Uid, group.Gid)
        | none => .error (.gidLookup lookupID)) := by
  have hnum2 : ∃ e, ParseInt ((Split usergrp ':').getD 0 []) 32 = .error e := by
    unfold isNumeric firstComponent at hnum
    cases hp : ParseInt ((Split usergrp ':').getD 0 []) 32 with
    | ok v => rw [hp] at hnum; cases hnum
    | error e => exact ⟨e, rfl⟩
  obtain ⟨e, he⟩ := hnum2
  have hl : ¬ ((Split usergrp ':').length > 2) := by omega
  unfold firstComponent
  refine ⟨?_, ?_, ?_⟩
  · intro hd hlook addUser2
    unfold parseRemappedRoot
    simp only [hl, if_false, he, if_neg hd, hlook, hd, ne_eq, not_false_eq_true, if_true]
  · intro hd hlook
    unfold parseRemappedRoot
    simp only [hl, if_false, he, hd, if_true, hlook, ne_eq, not_true_eq_false]
    cases addUser defaultRemappedID with
    | none => rfl
    | some ids => rfl
  · intro lookupID luser h1 hid hlook
    unfold parseRemappedRoot
    simp only [hl, if_false, he, ← hid, hlook, h1, if_true]
    cases env.LookupGroup lookupID with
    | none => rfl
    | some group =>
      simp only [resolveGroupPart, h1]
      rfl

/-- Witness of C15 (amended): "ghost" on a host where no name resolves;
"default" on that host, with a provisioning function that makes dockroot;
"root" on a host with the user and the group root. -/
theorem C15_lookup_and_provisioning_witness :
    (∀ addUser2 : List Char → Option (GoInt × GoInt),
      parseRemappedRoot emptyEnv addUser2 "ghost".toList =
        .error (.uidLookup "ghost".toList)) ∧
    parseRemappedRoot emptyEnv addDockroot "default".toList = .ok (1500, 1500) ∧
    parseRemappedRoot rootEnv addDockroot "root".toList = .ok (0, 0) :=
  ⟨(C15_lookup_and_provisioning emptyEnv addDockroot "ghost".toList (by decide)
      (by decide)).1 (by decide) (by decide),
   (C15_lookup_and_provisioning emptyEnv addDockroot "default".toList (by decide)
      (by decide)).2.1 (by decide) (by decide),
   (C15_lookup_and_provisioning rootEnv addDockroot "root".toList (by decide)
      (by decide)).2.2 "root".toList ⟨0, 0⟩ (by decide) (by decide) (by decide)⟩

/-! ## Mappings of disjoint ranges -/

/-- In a list without two ranges that both satisfy `P`, the first range that
satisfies `P` is the only one. -/
theorem first_match_unique (P : IDMap → Prop) (m pre post : List IDMap) (r r1 : IDMap)
    (hpair : m.Pairwise (fun a b => ¬ (P a ∧ P b))) (hm : m = pre ++ r1 :: post)
    (hpre : ∀ x ∈ pre, ¬ P x) (hr1 : P r1) (hr : r ∈ m) (hP : P r) : r1 = r := by
  subst hm
  rw [List.pairwise_append] at hpair
  obtain ⟨_, hcons, _⟩ := hpair
  rw [List.pairwise_cons] at hcons
  rcases List.mem_append.1 hr with h | h
  · exact absurd hP (hpre r h)
  · rcases List.mem_cons.1 h with h | h
    · exact h.symm
    · exact absurd ⟨hr1, hP⟩ (hcons.1 r h)

/-- From the container side: `ToHost` then `ToContainer`. -/
theorem roundtrip_from_container (m : List IDMap) (hd : disjointRanges m)
    (hp : ∀ r ∈ m, r.isProper) (id : GoInt) (h : ∃ r ∈ m, r.holdsContainerID id) :
    ∃ x, ToHost id (some m) = .ok x ∧ ToContainer x (some m) = .ok id := by
  obtain ⟨pre, r, post, hm, _, hin, hres⟩ := toHostLoop_first_match id m h
  have hrm : r ∈ m := by rw [hm]; simp
  obtain ⟨hs, _, hh⟩ := hp r hrm
  have hs2 : 0 < r.Size.val := by
    have := (GoInt.lt_iff _ _).1 hs
    rwa [GoInt.zero_val] at this
  obtain ⟨a1, a2, a3⟩ := roundtrip_arith r.ContainerID r.HostID r.Size id hs2 hh hin.1 hin.2
  have hhost : r.holdsHostID (r.HostID + (id - r.ContainerID)) := ⟨a1, a2⟩
  obtain ⟨pre2, r2, post2, hm2, hpre2, hin2, hres2⟩ :=
    toContainerLoop_first_match (r.HostID + (id - r.ContainerID)) m ⟨r, hrm, hhost⟩
  have hpair : m.Pairwise (fun a b => ¬ (a.holdsHostID (r.HostID + (id - r.ContainerID)) ∧
      b.holdsHostID (r.HostID + (id - r.ContainerID)))) :=
    hd.2.imp (fun hab => hab _)
  have e : r2 = r := first_match_unique _ m pre2 post2 r r2 hpair hm2 hpre2 hin2 hrm hhost
  subst e
  refine ⟨_, hres, ?_⟩
  simp only [ToContainer]
  rw [hres2]
  exact congrArg Except.ok (GoInt.ext a3)

/-- From the host side: `ToContainer` then `ToHost`. -/
theorem roundtrip_from_host (m : List IDMap) (hd : disjointRanges m)
    (hp : ∀ r ∈ m, r.isProper) (id : GoInt) (h : ∃ r ∈ m, r.holdsHostID id) :
    ∃ x, ToContainer id (some m) = .ok x ∧ ToHost x (some m) = .ok id := by
  obtain ⟨pre, r, post, hm, _, hin, hres⟩ := toContainerLoop_first_match id m h
  have hrm : r ∈ m := by rw [hm]; simp
  obtain ⟨hs, hc, _⟩ := hp r hrm
  have hs2 : 0 < r.Size.val := by
    have := (GoInt.lt_iff _ _).1 hs
    rwa [GoInt.zero_val] at this
  obtain ⟨a1, a2, a3⟩ := roundtrip_arith r.HostID r.ContainerID r.Size id hs2 hc hin.1 hin.2
  have hcont : r.holdsContainerID (r.ContainerID + (id - r.HostID)) := ⟨a1, a2⟩
  obtain ⟨pre2, r2, post2, hm2, hpre2, hin2, hres2⟩ :=
    toHostLoop_first_match (r.ContainerID + (id - r.HostID)) m ⟨r, hrm, hcont⟩
  have hpair : m.Pairwise (fun a b =>
      ¬ (a.holdsContainerID (r.ContainerID + (id - r.HostID)) ∧
        b.holdsContainerID (r.ContainerID + (id - r.HostID)))) :=
    hd.1.imp (fun hab => hab _)
  have e : r2 = r := first_match_unique _ m pre2 post2 r r2 hpair hm2 hpre2 hin2 hrm hcont
  subst e
  refine ⟨_, hres, ?_⟩
  simp only [ToHost]
  rw [hres2]
  exact congrArg Except.ok (GoInt.ext a3)

/-- C19, as stated, fails when an interval wraps around: the mapping
`[{0, 2^63-1, 2}]` is not empty and has (having one range) pairwise disjoint
intervals, its container interval holds 1, `ToHost(1)` is `-2^63` and
`ToContainer(-2^63)` is an error. -/
theorem C19_counterexample :
    ¬ (∀ (m : List IDMap), m ≠ [] → disjointRanges m →
        (∀ id, (∃ r ∈ m, r.holdsContainerID id) →
          ∃ x, ToHost id (some m) = .ok x ∧ ToContainer x (some m) = .ok id) ∧
        (∀ id, (∃ r ∈ m, r.holdsHostID id) →
          ∃ x, ToContainer id (some m) = .ok x ∧ ToHost x (some m) = .ok id)) ∧
    ToHost 1 (some [⟨0, GoInt.ofInt maxInt, 2⟩]) = .ok (GoInt.ofInt minInt) ∧
    ToContainer (GoInt.ofInt minInt) (some [⟨0, GoInt.ofInt maxInt, 2⟩]) =
      .error (.hostUnmappable (GoInt.ofInt minInt)) := by
  refine ⟨fun H => ?_, by decide, by decide⟩
  have hd : disjointRanges [⟨0, GoInt.ofInt maxInt, 2⟩] := by
    constructor <;> simp
  obtain ⟨x, h1, h2⟩ := (H [⟨0, GoInt.ofInt maxInt, 2⟩] (by simp) hd).1 1
    ⟨⟨0, GoInt.ofInt maxInt, 2⟩, by simp, by unfold IDMap.holdsContainerID; decide⟩
  have e : ToHost 1 (some [⟨0, GoInt.ofInt maxInt, 2⟩]) = .ok (GoInt.ofInt minInt) := by decide
  rw [e] at h1
  injection h1 with h1
  subst h1
  revert h2
  decide

/-- C19, amended: for every non-empty mapping whose ranges have size > 0 and
intervals that do not wrap around (containerID + size - 1 and hostID + size - 1
are at most the largest `int`), with pairwise disjoint container intervals and
pairwise disjoint host intervals, and every id covered by some range's
container interval, `ToContainer(ToHost(id, m), m) = id`; and for every id
covered by some range's host interval, `ToHost(ToContainer(id, m), m) = id`
(both translations succeed). -/
theorem C19_roundtrip_disjoint_ranges (m : List IDMap) (_hne : m ≠ [])
    (hd : disjointRanges m) (hp : ∀ r ∈ m, r.isProper) :
    (∀ id, (∃ r ∈ m, r.holdsContainerID id) →
      ∃ x, ToHost id (some m) = .ok x ∧ ToContainer x (some m) = .ok id) ∧
    (∀ id, (∃ r ∈ m, r.holdsHostID id) →
      ∃ x, ToContainer id (some m) = .ok x ∧ ToHost x (some m) = .ok id) :=
  ⟨fun id h => roundtrip_from_container m hd hp id h,
   fun id h => roundtrip_from_host m hd hp id h⟩


theorem twoRanges_disjoint : disjointRanges twoRanges := by
  have e1 : ((0 : GoInt) + 10 - 1).val = 9 := by decide
  have e2 : ((10 : GoInt)).val = 10 := by decide
  have e3 : ((100000 : GoInt) + 10 - 1).val = 100009 := by decide
  have e4 : ((200000 : GoInt)).val = 200000 := by decide
  unfold disjointRanges twoRanges
  constructor
  · simp only [List.pairwise_cons, List.mem_singleton, forall_eq, List.not_mem_nil,
      false_implies, implies_true, List.Pairwise.nil, and_true]
    intro id h
    obtain ⟨⟨_, h2⟩, ⟨h3, _⟩⟩ := h
    have h2' := (GoInt.le_iff _ _).1 h2
    have h3' := (GoInt.le_iff _ _).1 h3
    simp only [e1] at h2'
    simp only [e2] at h3'
    omega
  · simp only [List.pairwise_cons, List.mem_singleton, forall_eq, List.not_mem_nil,
      false_implies, implies_true, List.Pairwise.nil, and_true]
    intro id h
    obtain ⟨⟨_, h2⟩, ⟨h3, _⟩⟩ := h
    have h2' := (GoInt.le_iff _ _).1 h2
    have h3' := (GoInt.le_iff _ _).1 h3
    simp only [e3] at h2'
    simp only [e4] at h3'
    omega

theorem twoRanges_proper : ∀ r ∈ twoRanges, r.isProper := by
  intro r hr
  unfold twoRanges at hr
  simp only [List.mem_cons, List.mem_singleton, List.not_mem_nil, or_false] at hr
  rcases hr with e | e <;> subst e <;> unfold IDMap.isProper <;> decide

/-- Witness of C19 (amended): the mapping `[{0, 100000, 10}, {10, 200000, 10}]`
at the container id 15 and at the host id 100003. -/
theorem C19_roundtrip_disjoint_ranges_witness :
    (∃ x, ToHost 15 (some twoRanges) = .ok x ∧ ToContainer x (some twoRanges) = .ok 15) ∧
    (∃ x, ToContainer 100003 (some twoRanges) = .ok x ∧
      ToHost x (some twoRanges) = .ok 100003) :=
  ⟨(C19_roundtrip_disjoint_ranges twoRanges (by decide) twoRanges_disjoint
      twoRanges_proper).1 15
      ⟨⟨10, 200000, 10⟩, by decide, by unfold IDMap.holdsContainerID; decide⟩,
   (C19_roundtrip_disjoint_ranges twoRanges (by decide) twoRanges_disjoint
      twoRanges_proper).2 100003
      ⟨⟨0, 100000, 10⟩, by decide, by unfold IDMap.holdsHostID; decide⟩⟩


/-! ## Ownership translation -/

/-- The forward translation of one entry, with the ids written by the rule
of C17. -/
theorem xlateOneFile_forward (sys : Call → Bool) (path : List Char) (finfo : FileInfo)
    (X : GoUint32) :
    xlateOneFile sys path finfo X false =
      if finfo.Uid = 0 ∨ finfo.Gid = 0 then
        if sys (.Lchown path (forwardId X finfo.Uid).toInt (forwardId X finfo.Gid).toInt) = false
        then ⟨[.Lchown path (forwardId X finfo.Uid).toInt (forwardId X finfo.Gid).toInt],
          some (.cannotChown path), finfo⟩
        else if finfo.Mode &&& ModeSymlink ≠ ModeSymlink then
          if sys (.Chmod path finfo.Mode) = false then
            ⟨[.Lchown path (forwardId X finfo.Uid).toInt (forwardId X finfo.Gid).toInt,
              .Chmod path finfo.Mode], some (.cannotChmod path),
              ⟨finfo.Name, finfo.Mode, chownedId finfo.Uid (forwardId X finfo.Uid),
                chownedId finfo.Gid (forwardId X finfo.Gid)⟩⟩
          else
            ⟨[.Lchown path (forwardId X finfo.Uid).toInt (forwardId X finfo.Gid).toInt,
              .Chmod path finfo.Mode], none,
              ⟨finfo.Name, finfo.Mode, chownedId finfo.Uid (forwardId X finfo.Uid),
                chownedId finfo.Gid (forwardId X finfo.Gid)⟩⟩
        else
          ⟨[.Lchown path (forwardId X finfo.Uid).toInt (forwardId X finfo.Gid).toInt], none,
            ⟨finfo.Name, finfo.Mode, chownedId finfo.Uid (forwardId X finfo.Uid),
                chownedId finfo.Gid (forwardId X finfo.Gid)⟩⟩
      else ⟨[], none, finfo⟩ := by
  simp only [xlateOneFile, forwardId, GoUint32.toInt, and_true, Bool.false_eq_true, and_false,
    or_false, if_false]

/-- The inverse translation of one entry, with the ids written by the rule
of C17. -/
theorem xlateOneFile_inverse (sys : Call → Bool) (path : List Char) (finfo : FileInfo)
    (X : GoUint32) :
    xlateOneFile sys path finfo X true =
      if finfo.Uid = X ∨ finfo.Gid = X then
        if sys (.Lchown path (inverseId X finfo.Uid).toInt (inverseId X finfo.Gid).toInt) = false
        then ⟨[.Lchown path (inverseId X finfo.Uid).toInt (inverseId X finfo.Gid).toInt],
          some (.cannotChown path), finfo⟩
        else if finfo.Mode &&& ModeSymlink ≠ ModeSymlink then
          if sys (.Chmod path finfo.Mode) = false then
            ⟨[.Lchown path (inverseId X finfo.Uid).toInt (inverseId X finfo.Gid).toInt,
              .Chmod path finfo.Mode], some (.cannotChmod path),
              ⟨finfo.Name, finfo.Mode, chownedId finfo.Uid (inverseId X finfo.Uid),
                chownedId finfo.Gid (inverseId X finfo.Gid)⟩⟩
          else
            ⟨[.Lchown path (inverseId X finfo.Uid).toInt (inverseId X finfo.Gid).toInt,
              .Chmod path finfo.Mode], none,
              ⟨finfo.Name, finfo.Mode, chownedId finfo.Uid (inverseId X finfo.Uid),
                chownedId finfo.Gid (inverseId X finfo.Gid)⟩⟩
        else
          ⟨[.Lchown path (inverseId X finfo.Uid).toInt (inverseId X finfo.Gid).toInt], none,
            ⟨finfo.Name, finfo.Mode, chownedId finfo.Uid (inverseId X finfo.Uid),
                chownedId finfo.Gid (inverseId X finfo.Gid)⟩⟩
      else ⟨[], none, finfo⟩ := by
  simp only [xlateOneFile, inverseId, GoUint32.toInt, and_true, Bool.true_eq_false, and_false,
    false_or, if_false]

theorem forwardId_of_ne (X id : GoUint32) (h : id ≠ 0) : forwardId X id = id := by
  simp [forwardId, h]

theorem inverseId_of_ne (X id : GoUint32) (h : id ≠ X) : inverseId X id = id := by
  simp [inverseId, h]

/-- A successful `Lchown` with the id that the entry has leaves it. -/
theorem chownedId_self (id : GoUint32) : chownedId id id = id := by
  unfold chownedId
  split_ifs <;> rfl

/-- A successful `Lchown` with the id of the forward rule gives the entry
that id, unless the container root is 2^32-1. -/
theorem chownedId_forwardId (X id : GoUint32) (hX : X ≠ 4294967295) :
    chownedId id (forwardId X id) = forwardId X id := by
  unfold forwardId
  by_cases h0 : id = 0
  · rw [if_pos h0, chownedId, if_neg hX]
  · rw [if_neg h0, chownedId_self]

/-- A successful `Lchown` with the id of the forward rule leaves the id of
the entry as it is when the container root is 2^32-1. -/
theorem chownedId_forwardId_max (id : GoUint32) :
    chownedId id (forwardId 4294967295 id) = id := by
  unfold forwardId
  by_cases h0 : id = 0
  · rw [if_pos h0, chownedId, if_pos rfl]
  · rw [if_neg h0, chownedId_self]

/-- A successful `Lchown` with the id of the inverse rule gives the entry
that id. -/
theorem chownedId_inverseId (X id : GoUint32) :
    chownedId id (inverseId X id) = inverseId X id := by
  have h0 : (0 : GoUint32) ≠ 4294967295 := by decide
  unfold inverseId
  by_cases hx : id = X
  · rw [if_pos hx, chownedId, if_neg h0]
  · rw [if_neg hx, chownedId_self]

theorem inverseId_forwardId (X id : GoUint32) (h : id ≠ X) :
    inverseId X (chownedId id (forwardId X id)) = id := by
  have hz : (0 : GoUint32) ≠ 4294967295 := by decide
  unfold forwardId
  by_cases h0 : id = 0
  · rw [if_pos h0]
    subst h0
    unfold chownedId inverseId
    by_cases hX : X = 4294967295
    · rw [if_pos hX, if_neg h]
    · rw [if_neg hX, if_pos rfl]
  · rw [if_neg h0, chownedId_self, inverseId_of_ne X id h]

theorem forwardId_idem (X id : GoUint32) :
    chownedId (chownedId id (forwardId X id)) (forwardId X (chownedId id (forwardId X id))) =
      chownedId id (forwardId X id) := by
  unfold forwardId
  by_cases h0 : id = 0
  · rw [if_pos h0]
    subst h0
    unfold chownedId
    by_cases hX : X = 4294967295
    · rw [if_pos hX, if_pos rfl, if_pos hX]
    · rw [if_neg hX]
      by_cases hX0 : X = 0
      · rw [if_pos hX0, if_neg hX]
      · rw [if_neg hX0, if_neg hX]
  · rw [if_neg h0, chownedId_self, if_neg h0, chownedId_self]

theorem inverseId_idem (X id : GoUint32) :
    chownedId (chownedId id (inverseId X id)) (inverseId X (chownedId id (inverseId X id))) =
      chownedId id (inverseId X id) := by
  rw [chownedId_inverseId, chownedId_inverseId]
  unfold inverseId
  by_cases h0 : id = X
  · rw [if_pos h0]
    by_cases hX : (0 : GoUint32) = X
    · rw [if_pos hX]
    · rw [if_neg hX]
  · rw [if_neg h0, if_neg h0]

/-- A forward translation that returns no error leaves the entry with the
owner that the `Lchown` of the rule gives it. -/
theorem xlateOneFile_forward_after (sys : Call → Bool) (path : List Char) (finfo : FileInfo)
    (X : GoUint32) (h : (xlateOneFile sys path finfo X false).err = none) :
    (xlateOneFile sys path finfo X false).after =
      ⟨finfo.Name, finfo.Mode, chownedId finfo.Uid (forwardId X finfo.Uid),
        chownedId finfo.Gid (forwardId X finfo.Gid)⟩ := by
  rw [xlateOneFile_forward] at h ⊢
  split_ifs at h ⊢ with h1 h2 h3 h4
  all_goals first
    | rfl
    | (simp at h; done)
    | (have a : finfo.Uid ≠ 0 := fun e => h1 (Or.inl e)
       have b : finfo.Gid ≠ 0 := fun e => h1 (Or.inr e)
       rw [forwardId_of_ne X _ a, forwardId_of_ne X _ b, chownedId_self, chownedId_self])

/-- An inverse translation that returns no error leaves the entry with the
owner of the rule. -/
theorem xlateOneFile_inverse_after (sys : Call → Bool) (path : List Char) (finfo : FileInfo)
    (X : GoUint32) (h : (xlateOneFile sys path finfo X true).err = none) :
    (xlateOneFile sys path finfo X true).after =
      ⟨finfo.Name, finfo.Mode, inverseId X finfo.Uid, inverseId X finfo.Gid⟩ := by
  rw [xlateOneFile_inverse] at h ⊢
  simp only [chownedId_inverseId] at h ⊢
  split_ifs at h ⊢ with h1 h2 h3 h4
  all_goals first
    | rfl
    | (simp at h; done)
    | (have a : finfo.Uid ≠ X := fun e => h1 (Or.inl e)
       have b : finfo.Gid ≠ X := fun e => h1 (Or.inr e)
       rw [inverseId_of_ne X _ a, inverseId_of_ne X _ b])

/-- Forward and then inverse translation of one entry that holds no id of
the container root gives the entry back. -/
theorem xlateOneFile_involutive (sys₁ sys₂ : Call → Bool) (path₁ path₂ : List Char)
    (finfo : FileInfo) (X : GoUint32) (hu : finfo.Uid ≠ X) (hg : finfo.Gid ≠ X)
    (h₁ : (xlateOneFile sys₁ path₁ finfo X false).err = none)
    (h₂ : (xlateOneFile sys₂ path₂ (xlateOneFile sys₁ path₁ finfo X false).after X true).err =
      none) :
    (xlateOneFile sys₂ path₂ (xlateOneFile sys₁ path₁ finfo X false).after X true).after =
      finfo := by
  rw [xlateOneFile_inverse_after sys₂ path₂ _ X h₂, xlateOneFile_forward_after sys₁ path₁ _ X h₁]
  simp only [inverseId_forwardId X _ hu, inverseId_forwardId X _ hg]


/-- Whatever the system calls do, a forward translation leaves the entry as
it was or with the owner that the `Lchown` of the rule gives it. -/
theorem xlateOneFile_forward_cases (sys : Call → Bool) (path : List Char) (finfo : FileInfo)
    (X : GoUint32) :
    (xlateOneFile sys path finfo X false).after = finfo ∨
      (xlateOneFile sys path finfo X false).after =
        ⟨finfo.Name, finfo.Mode, chownedId finfo.Uid (forwardId X finfo.Uid),
          chownedId finfo.Gid (forwardId X finfo.Gid)⟩ := by
  rw [xlateOneFile_forward]
  split_ifs
  all_goals first
    | exact Or.inl rfl
    | exact Or.inr rfl

/-- Whatever the system calls do, an inverse translation leaves the entry as
it was or with the owner that the `Lchown` of the rule gives it. -/
theorem xlateOneFile_inverse_cases (sys : Call → Bool) (path : List Char) (finfo : FileInfo)
    (X : GoUint32) :
    (xlateOneFile sys path finfo X true).after = finfo ∨
      (xlateOneFile sys path finfo X true).after =
        ⟨finfo.Name, finfo.Mode, chownedId finfo.Uid (inverseId X finfo.Uid),
          chownedId finfo.Gid (inverseId X finfo.Gid)⟩ := by
  rw [xlateOneFile_inverse]
  split_ifs
  all_goals first
    | exact Or.inl rfl
    | exact Or.inr rfl

/-- C17, as stated, fails for the container-root id X = 2^32-1: `Lchown` is
called with that id, which the system call reads as -1 and leaves unchanged.
Forward, the entry owned by (0, 500) gets the call `Lchown(path, 2^32-1, 500)`
and, every call succeeding, is still owned by (0, 500), not by (X, 500). -/
theorem C17_counterexample :
    ¬ (∀ (sys : Call → Bool) (path : List Char) (finfo : FileInfo) (X : GoUint32),
        (xlateOneFile sys path finfo X false).err = none →
        (xlateOneFile sys path finfo X false).after.Uid = forwardId X finfo.Uid ∧
        (xlateOneFile sys path finfo X false).after.Gid = forwardId X finfo.Gid) ∧
    (xlateOneFile (fun _ => true) "/a".toList ⟨"a".toList, 420, 0, 500⟩ 4294967295 false).calls =
      [.Lchown "/a".toList 4294967295 500, .Chmod "/a".toList 420] ∧
    (xlateOneFile (fun _ => true) "/a".toList ⟨"a".toList, 420, 0, 500⟩ 4294967295 false).err =
      none ∧
    (xlateOneFile (fun _ => true) "/a".toList ⟨"a".toList, 420, 0, 500⟩ 4294967295 false).after =
      ⟨"a".toList, 420, 0, 500⟩ ∧
    forwardId 4294967295 0 = 4294967295 := by
  refine ⟨fun H => ?_, by decide, by decide, by decide, by decide⟩
  have h := (H (fun _ => true) "/a".toList ⟨"a".toList, 420, 0, 500⟩ 4294967295 (by decide)).1
  revert h
  decide

/-- C17, amended: for every entry ownership (uid, gid) and container-root id
X, `xlateOneFile` in forward mode calls `Lchown` with (X if uid == 0 else uid,
X if gid == 0 else gid) when uid == 0 or gid == 0, and the entry has that
owner when no error is returned and X is not 2^32-1 (for X = 2^32-1 the
entry is left with the owner it had); in inverse mode it calls
`Lchown` with (0 if uid == X else uid, 0 if gid == X else gid) when uid == X
or gid == X, and the entry has that owner when no error is returned, for
every X. When the entry matches neither trigger (forward: uid != 0 and
gid != 0; inverse: uid != X and gid != X) no call is issued, the entry is left
as it is, and the call succeeds. -/
theorem C17_rewrite_rule (sys : Call → Bool) (path : List Char) (finfo : FileInfo)
    (X : GoUint32) :
    ((finfo.Uid = 0 ∨ finfo.Gid = 0 →
        (xlateOneFile sys path finfo X false).calls.head? =
          some (.Lchown path (forwardId X finfo.Uid).toInt (forwardId X finfo.Gid).toInt)) ∧
      (X ≠ 4294967295 → (xlateOneFile sys path finfo X false).err = none →
        (xlateOneFile sys path finfo X false).after.Uid = forwardId X finfo.Uid ∧
        (xlateOneFile sys path finfo X false).after.Gid = forwardId X finfo.Gid) ∧
      (X = 4294967295 → (xlateOneFile sys path finfo X false).err = none →
        (xlateOneFile sys path finfo X false).after = finfo) ∧
      (finfo.Uid ≠ 0 ∧ finfo.Gid ≠ 0 →
        (xlateOneFile sys path finfo X false).calls = [] ∧
        (xlateOneFile sys path finfo X false).err = none ∧
        (xlateOneFile sys path finfo X false).after = finfo)) ∧
    ((finfo.Uid = X ∨ finfo.Gid = X →
        (xlateOneFile sys path finfo X true).calls.head? =
          some (.Lchown path (inverseId X finfo.Uid).toInt (inverseId X finfo.Gid).toInt)) ∧
      ((xlateOneFile sys path finfo X true).err = none →
        (xlateOneFile sys path finfo X true).after.Uid = inverseId X finfo.Uid ∧
        (xlateOneFile sys path finfo X true).after.Gid = inverseId X finfo.Gid) ∧
      (finfo.Uid ≠ X ∧ finfo.Gid ≠ X →
        (xlateOneFile sys path finfo X true).calls = [] ∧
        (xlateOneFile sys path finfo X true).err = none ∧
        (xlateOneFile sys path finfo X true).after = finfo)) := by
  refine ⟨⟨?_, ?_, ?_, ?_⟩, ⟨?_, ?_, ?_⟩⟩
  · intro h
    rw [xlateOneFile_forward, if_pos h]
    split_ifs <;> rfl
  · intro hX h
    rw [xlateOneFile_forward_after sys path finfo X h]
    exact ⟨chownedId_forwardId X _ hX, chownedId_forwardId X _ hX⟩
  · intro hX h
    rw [xlateOneFile_forward_after sys path finfo X h, hX, chownedId_forwardId_max,
      chownedId_forwardId_max]
  · intro h
    have hn : ¬ (finfo.Uid = 0 ∨ finfo.Gid = 0) := fun e => e.elim h.1 h.2
    rw [xlateOneFile_forward, if_neg hn]
    exact ⟨rfl, rfl, rfl⟩
  · intro h
    rw [xlateOneFile_inverse, if_pos h]
    split_ifs <;> rfl
  · intro h
    rw [xlateOneFile_inverse_after sys path finfo X h]
    exact ⟨rfl, rfl⟩
  · intro h
    have hn : ¬ (finfo.Uid = X ∨ finfo.Gid = X) := fun e => e.elim h.1 h.2
    rw [xlateOneFile_inverse, if_neg hn]
    exact ⟨rfl, rfl, rfl⟩

/-- Witness of C17 (amended): forward, the entry owned by (0, 500) becomes
owned by (X, 500), here with X = 1500; the entry owned by (7, 500) is left
alone. -/
theorem C17_rewrite_rule_witness :
    ((xlateOneFile (fun _ => true) "/a".toList ⟨"a".toList, 420, 0, 500⟩ 1500 false).after.Uid =
        1500 ∧
      (xlateOneFile (fun _ => true) "/a".toList ⟨"a".toList, 420, 0, 500⟩ 1500 false).after.Gid =
        500) ∧
    (xlateOneFile (fun _ => true) "/a".toList ⟨"a".toList, 420, 7, 500⟩ 1500 false).calls = [] :=
  ⟨(C17_rewrite_rule (fun _ => true) "/a".toList ⟨"a".toList, 420, 0, 500⟩ 1500).1.2.1
      (by decide) (by decide),
   ((C17_rewrite_rule (fun _ => true) "/a".toList ⟨"a".toList, 420, 7, 500⟩ 1500).1.2.2.2
      (by decide)).1⟩

/-- C18: for every entry whose mode has the symlink bit set, every ownership,
every X and both directions, `xlateOneFile` issues no `Chmod`, even when it
rewrites the owner; and for every other entry the only `Chmod` it can issue
is that of the entry with its original mode, issued exactly when an `Lchown`
was issued and succeeded. -/
theorem C18_symlink_no_chmod (sys : Call → Bool) (path : List Char) (finfo : FileInfo)
    (X : GoUint32) (inverse : Bool) :
    (finfo.Mode &&& ModeSymlink = ModeSymlink →
      ∀ p m, Call.Chmod p m ∉ (xlateOneFile sys path finfo X inverse).calls) ∧
    (finfo.Mode &&& ModeSymlink ≠ ModeSymlink →
      (∀ p m, Call.Chmod p m ∈ (xlateOneFile sys path finfo X inverse).calls →
        p = path ∧ m = finfo.Mode) ∧
      (Call.Chmod path finfo.Mode ∈ (xlateOneFile sys path finfo X inverse).calls ↔
        ∃ u g, Call.Lchown path u g ∈ (xlateOneFile sys path finfo X inverse).calls ∧
          sys (.Lchown path u g) = true)) := by
  cases inverse with
  | false =>
    rw [xlateOneFile_forward]
    refine ⟨fun hs p m => ?_, fun hs => ⟨fun p m => ?_, ?_⟩⟩
    · split_ifs <;> simp_all
    · split_ifs <;> simp
    · split_ifs
      all_goals try simp_all
      all_goals exact ⟨_, _, ⟨rfl, rfl⟩, by assumption⟩
  | true =>
    rw [xlateOneFile_inverse]
    refine ⟨fun hs p m => ?_, fun hs => ⟨fun p m => ?_, ?_⟩⟩
    · split_ifs <;> simp_all
    · split_ifs <;> simp
    · split_ifs
      all_goals try simp_all
      all_goals exact ⟨_, _, ⟨rfl, rfl⟩, by assumption⟩

/-- C20: for every ownership (uid, gid), every container-root id X and each
direction, a second translation of the entry by `xlateOneFile`, after a first
one that returned no error, leaves the (uid, gid) of the first: forward is
idempotent, and inverse is idempotent. -/
theorem C20_rewrite_idempotent (sys₁ sys₂ : Call → Bool) (path : List Char) (finfo : FileInfo)
    (X : GoUint32) :
    ((xlateOneFile sys₁ path finfo X false).err = none →
      (xlateOneFile sys₂ path (xlateOneFile sys₁ path finfo X false).after X false).after =
        (xlateOneFile sys₁ path finfo X false).after) ∧
    ((xlateOneFile sys₁ path finfo X true).err = none →
      (xlateOneFile sys₂ path (xlateOneFile sys₁ path finfo X true).after X true).after =
        (xlateOneFile sys₁ path finfo X true).after) := by
  constructor
  · intro h
    rw [xlateOneFile_forward_after sys₁ path finfo X h]
    rcases xlateOneFile_forward_cases sys₂ path
      ⟨finfo.Name, finfo.Mode, chownedId finfo.Uid (forwardId X finfo.Uid),
        chownedId finfo.Gid (forwardId X finfo.Gid)⟩ X with e | e
    · exact e
    · rw [e]
      simp only [forwardId_idem]
  · intro h
    rw [xlateOneFile_inverse_after sys₁ path finfo X h]
    rcases xlateOneFile_inverse_cases sys₂ path
      ⟨finfo.Name, finfo.Mode, inverseId X finfo.Uid, inverseId X finfo.Gid⟩ X with e | e
    · exact e
    · rw [e]
      have e1 := inverseId_idem X finfo.Uid
      have e2 := inverseId_idem X finfo.Gid
      simp only [chownedId_inverseId] at e1 e2 ⊢
      rw [e1, e2]

/-- Witness of C20: the entry owned by (0, 500), forward with X = 1500, and
the entry owned by (1500, 0), inverse with X = 1500. -/
theorem C20_rewrite_idempotent_witness :
    (xlateOneFile (fun _ => true) "/a".toList
        (xlateOneFile (fun _ => true) "/a".toList ⟨"a".toList, 420, 0, 500⟩ 1500 false).after
        1500 false).after = ⟨"a".toList, 420, 1500, 500⟩ ∧
    (xlateOneFile (fun _ => true) "/a".toList
        (xlateOneFile (fun _ => true) "/a".toList ⟨"a".toList, 420, 1500, 0⟩ 1500 true).after
        1500 true).after = ⟨"a".toList, 420, 0, 0⟩ :=
  ⟨(C20_rewrite_idempotent (fun _ => true) (fun _ => true) "/a".toList
      ⟨"a".toList, 420, 0, 500⟩ 1500).1 (by decide),
   (C20_rewrite_idempotent (fun _ => true) (fun _ => true) "/a".toList
      ⟨"a".toList, 420, 1500, 0⟩ 1500).2 (by decide)⟩


/-- A run of the loop that returns no error: every step returned none, and
the entries after the run are those after the steps. -/
theorem xlateList_cons_ok (sys : Call → Bool) (base : List Char) (X : GoUint32)
    (inverse : Bool) (n : Node) (rest : List Node)
    (h : (xlateList sys base X inverse (n :: rest)).err = none) :
    (xlateChild sys base X inverse n).err = none ∧
    (xlateOneFile sys (Join base n.info.Name) n.info X inverse).err = none ∧
    (xlateList sys base X inverse rest).err = none ∧
    (xlateList sys base X inverse (n :: rest)).after =
      .mk (xlateOneFile sys (Join base n.info.Name) n.info X inverse).after
          (xlateChild sys base X inverse n).after ::
        (xlateList sys base X inverse rest).after := by
  rw [xlateList] at h ⊢
  simp only [] at h ⊢
  unfold xlateChild
  split at h
  · cases h
  · rename_i h1
    split at h
    · cases h
    · rename_i h2
      simp only [h1, h2]
      exact ⟨trivial, trivial, h, trivial⟩

/-- A run on a directory that returns no error: the entry is a directory and
the run of the loop on its entries returned none. -/
theorem xlateUidsRecursive_ok (sys : Call → Bool) (base : List Char) (X : GoUint32)
    (inverse : Bool) (finfo : FileInfo) (entries : List Node)
    (h : (xlateUidsRecursive sys base X inverse (.mk finfo entries)).err = none) :
    (xlateList sys base X inverse entries).err = none ∧
    (xlateUidsRecursive sys base X inverse (.mk finfo entries)).after =
      (xlateList sys base X inverse entries).after := by
  rw [xlateUidsRecursive] at h ⊢
  by_cases h1 : sys (.Open base) = false
  · rw [if_pos h1] at h
    cases h
  · rw [if_neg h1] at h ⊢
    by_cases h2 : finfo.IsDir = false ∨ sys (.Readdir base) = false
    · rw [if_pos h2] at h
      cases h
    · rw [if_neg h2] at h ⊢
      exact ⟨h, rfl⟩

theorem Node.mk_info_entries (n : Node) : Node.mk n.info n.entries = n := by
  cases n; rfl

theorem Node.info_mk (info : FileInfo) (entries : List Node) :
    (Node.mk info entries).info = info := rfl

theorem Node.entries_mk (info : FileInfo) (entries : List Node) :
    (Node.mk info entries).entries = entries := rfl

theorem xlateOneFile_forward_IsDir (sys : Call → Bool) (path : List Char) (finfo : FileInfo)
    (X : GoUint32) (h : (xlateOneFile sys path finfo X false).err = none) :
    (xlateOneFile sys path finfo X false).after.IsDir = finfo.IsDir ∧
      (xlateOneFile sys path finfo X false).after.Name = finfo.Name := by
  rw [xlateOneFile_forward_after sys path finfo X h]
  exact ⟨rfl, rfl⟩

mutual
/-- Forward and then inverse translation of the entries of a directory, when
both runs return no error and no entry holds an id of the container root. -/
theorem xlateUidsRecursive_involutive (X : GoUint32) :
    ∀ (n : Node) (sys₁ sys₂ : Call → Bool) (base₁ base₂ : List Char) (finfo : FileInfo),
      Node.allList (FileInfo.noRootID X) n.entries = true →
      (xlateUidsRecursive sys₁ base₁ X false n).err = none →
      (xlateUidsRecursive sys₂ base₂ X true
        (.mk finfo (xlateUidsRecursive sys₁ base₁ X false n).after)).err = none →
      (xlateUidsRecursive sys₂ base₂ X true
        (.mk finfo (xlateUidsRecursive sys₁ base₁ X false n).after)).after = n.entries
  | .mk fi es, sys₁, sys₂, base₁, base₂, finfo, hall, h1, h2 => by
    obtain ⟨a1, a2⟩ := xlateUidsRecursive_ok sys₁ base₁ X false fi es h1
    rw [a2] at h2 ⊢
    obtain ⟨b1, b2⟩ := xlateUidsRecursive_ok sys₂ base₂ X true finfo _ h2
    rw [b2]
    exact xlateList_involutive X es sys₁ sys₂ base₁ base₂ hall a1 b1
/-- Forward and then inverse run of the loop over a list of entries. -/
theorem xlateList_involutive (X : GoUint32) :
    ∀ (l : List Node) (sys₁ sys₂ : Call → Bool) (base₁ base₂ : List Char),
      Node.allList (FileInfo.noRootID X) l = true →
      (xlateList sys₁ base₁ X false l).err = none →
      (xlateList sys₂ base₂ X true (xlateList sys₁ base₁ X false l).after).err = none →
      (xlateList sys₂ base₂ X true (xlateList sys₁ base₁ X false l).after).after = l
  | [], sys₁, sys₂, base₁, base₂, _, _, _ => by
    simp only [xlateList]
  | n :: rest, sys₁, sys₂, base₁, base₂, hall, h1, h2 => by
    obtain ⟨c1, c2, c3, c4⟩ := xlateList_cons_ok sys₁ base₁ X false n rest h1
    rw [c4] at h2 ⊢
    obtain ⟨d1, d2, d3, d4⟩ := xlateList_cons_ok sys₂ base₂ X true _ _ h2
    rw [d4]
    simp only [Node.info_mk] at d1 d2 ⊢
    rw [Node.allList, Bool.and_eq_true] at hall
    obtain ⟨hn, hrest⟩ := hall
    have hn2 : FileInfo.noRootID X n.info = true ∧
        Node.allList (FileInfo.noRootID X) n.entries = true := by
      cases n with
      | mk fi es =>
        rw [Node.all, Bool.and_eq_true] at hn
        exact hn
    obtain ⟨hinfo, hents⟩ := hn2
    simp only [FileInfo.noRootID, Bool.and_eq_true, decide_eq_true_eq] at hinfo
    have e2 := xlateOneFile_involutive sys₁ sys₂ (Join base₁ n.info.Name) _ n.info X
      hinfo.1 hinfo.2 c2 d2
    have e3 := xlateList_involutive X rest sys₁ sys₂ base₁ base₂ hrest c3 d3
    obtain ⟨hdir, _⟩ := xlateOneFile_forward_IsDir sys₁ (Join base₁ n.info.Name) n.info X c2
    have e1 : (xlateChild sys₂ base₂ X true
        (.mk (xlateOneFile sys₁ (Join base₁ n.info.Name) n.info X false).after
          (xlateChild sys₁ base₁ X false n).after)).after = n.entries := by
      unfold xlateChild at c1 d1 ⊢
      simp only [Node.info_mk, Node.entries_mk, hdir] at d1 ⊢
      by_cases hd : n.info.IsDir = true
      · simp only [if_pos hd] at c1 d1 ⊢
        exact xlateUidsRecursive_involutive X n sys₁ sys₂ _ _ _ hents c1 d1
      · simp only [if_neg hd]
    rw [e1, e2, e3, Node.mk_info_entries]
end


/-- The forward translation of the sample tree issues these calls, in this
order: the entries of a directory before the directory, the root last, and
no `Chmod` for the symbolic link. -/
theorem XlateUids_sampleTree_calls :
    (XlateUids (fun _ => true) (some 1500) "/t".toList false sampleTree).calls =
      [.Open "/t".toList, .Readdir "/t".toList,
       .Lchown "/t/f".toList 1500 1500, .Chmod "/t/f".toList 420,
       .Lchown "/t/l".toList 1500 500,
       .Open "/t/d".toList, .Readdir "/t/d".toList,
       .Lchown "/t/d".toList 7 1500, .Chmod "/t/d".toList (ModeDir + 493),
       .Stat "/t".toList,
       .Lchown "/t".toList 1500 1500, .Chmod "/t".toList (ModeDir + 493)] := by
  decide


/-- Witness of C18: a symbolic link owned by root gets an `Lchown` and no
`Chmod`; a regular file owned by root gets a `Chmod` with its mode, since
the `Lchown` issued succeeded. -/
theorem C18_symlink_no_chmod_witness :
    (∀ p m, Call.Chmod p m ∉
      (xlateOneFile (fun _ => true) "/l".toList ⟨"l".toList, ModeSymlink + 511, 0, 0⟩ 1500
        false).calls) ∧
    Call.Chmod "/f".toList 420 ∈
      (xlateOneFile (fun _ => true) "/f".toList ⟨"f".toList, 420, 0, 0⟩ 1500 false).calls :=
  ⟨(C18_symlink_no_chmod (fun _ => true) "/l".toList ⟨"l".toList, ModeSymlink + 511, 0, 0⟩ 1500
      false).1 (by decide),
   ((C18_symlink_no_chmod (fun _ => true) "/f".toList ⟨"f".toList, 420, 0, 0⟩ 1500
      false).2 (by decide)).2.2 ⟨1500, 1500, by decide, by decide⟩⟩


end Idtools
